import Mathlib

/-!
Verification of the agent-factory core against its specification.

Strings are modelled as `List Char`.  Python functions from the repository are
embedded as computable Lean functions with the same names; stateful tools are
embedded as explicit state-passing functions; external control-plane calls are
modelled by oracle parameters.
-/

namespace AgentFactory

/-! ## String preliminaries -/

/-- Substring test: `p` occurs somewhere inside `s` (Python's `p in s`). -/
def containsB (p : List Char) : List Char → Bool
  | [] => p.isEmpty
  | c :: t => p.isPrefixOf (c :: t) || containsB p t

/-- Python whitespace characters (`str.strip`, regex `\s`), ASCII range. -/
def isWsChar (c : Char) : Bool :=
  c = ' ' || c = '\t' || c = '\n' || c = '\r' || c = '\x0b' || c = '\x0c'

/-- `s.strip()`: drop whitespace from both ends. -/
def pyStrip (s : List Char) : List Char :=
  List.rdropWhile (fun c => isWsChar c) (s.dropWhile fun c => isWsChar c)

/-- `s.strip(c)` for a single character: drop `c` from both ends. -/
def stripChar (c : Char) (s : List Char) : List Char :=
  List.rdropWhile (fun x => x = c) (s.dropWhile fun x => x = c)

/-- `s.rstrip(c)` for a single character. -/
def rstripChar (c : Char) (s : List Char) : List Char :=
  List.rdropWhile (fun x => x = c) s

/-- `s.lstrip(c)` for a single character. -/
def lstripChar (c : Char) (s : List Char) : List Char :=
  s.dropWhile (fun x => x = c)

/-- Collapse every run of the character `c` to a single occurrence
(regex `re.sub(c+, c, s)`). -/
def collapseRuns (c : Char) : List Char → List Char
  | [] => []
  | [a] => [a]
  | a :: b :: t =>
    if a = c && b = c then collapseRuns c (b :: t)
    else a :: collapseRuns c (b :: t)

/-- No two adjacent occurrences of `c`. -/
def noRunB (c : Char) : List Char → Bool
  | [] => true
  | [_] => true
  | a :: b :: t => !(a = c && b = c) && noRunB c (b :: t)

def isLowerAlpha (c : Char) : Bool := 97 ≤ c.toNat && c.toNat ≤ 122

def isUpperAlpha (c : Char) : Bool := 65 ≤ c.toNat && c.toNat ≤ 90

def isAsciiAlpha (c : Char) : Bool := isLowerAlpha c || isUpperAlpha c

def isAsciiDigit (c : Char) : Bool := 48 ≤ c.toNat && c.toNat ≤ 57

def isAsciiAlnum (c : Char) : Bool := isAsciiAlpha c || isAsciiDigit c

/-- `str.lower()`-style ASCII lowering, as applied to resource names. -/
def asciiLower (c : Char) : Char :=
  if isUpperAlpha c then Char.ofNat (c.toNat + 32) else c

/-- `if sanitized and not sanitized[0].isalpha(): sanitized = pre + sanitized`. -/
def forceLeadingAlpha (pre : List Char) (s : List Char) : List Char :=
  match s with
  | [] => []
  | c :: _ => if isAsciiAlpha c then s else pre ++ s

/-- Gateway variant:
`if sanitized and not sanitized[0].isalnum(): sanitized = 'gw-' + sanitized.lstrip('-')`. -/
def forceLeadingAlnumGw (s : List Char) : List Char :=
  match s with
  | [] => []
  | c :: _ => if isAsciiAlnum c then s else "gw-".toList ++ lstripChar '-' s

/-- `if len(sanitized) > max_length: sanitized = sanitized[:max_length].rstrip(sep)`. -/
def truncateTail (sep : Char) (maxLen : Nat) (s : List Char) : List Char :=
  if maxLen < s.length then rstripChar sep (s.take maxLen) else s

/-- `if not sanitized: sanitized = d`. -/
def orDefault (d : List Char) (s : List Char) : List Char :=
  if s = [] then d else s

/-- Character class `[a-z0-9-]` of the generic AWS-name sanitizer. -/
def awsNameClass (c : Char) : Bool := isLowerAlpha c || isAsciiDigit c || c = '-'

/-- Character class `[a-z0-9_]` of the memory-name sanitizer. -/
def memNameClass (c : Char) : Bool := isLowerAlpha c || isAsciiDigit c || c = '_'

/-- Character class `[a-zA-Z0-9_]` of the runtime-name sanitizer. -/
def wordClass (c : Char) : Bool := isAsciiAlnum c || c = '_'

/-- Character class `[a-zA-Z0-9-]` of the gateway-name sanitizers. -/
def gwClass (c : Char) : Bool := isAsciiAlnum c || c = '-'

/-- `sanitize_aws_name` (src/utils/validation.py lines 20-71). -/
def sanitize_aws_name (name : List Char) (max_length : Nat) : List Char :=
  orDefault "agent".toList
    (truncateTail '-' max_length
      (stripChar '-'
        (forceLeadingAlpha ['a', '-']
          (collapseRuns '-'
            (((name.map asciiLower).map
                (fun c => if c = ' ' || c = '_' then '-' else c)).filter
              awsNameClass)))))

/-- `sanitize_memory_name` (src/utils/validation.py lines 74-124). -/
def sanitize_memory_name (name : List Char) (max_length : Nat) : List Char :=
  orDefault "agent_memory".toList
    (truncateTail '_' max_length
      (stripChar '_'
        (forceLeadingAlpha ['a', '_']
          (collapseRuns '_'
            (((name.map asciiLower).map
                (fun c => if c = ' ' || c = '-' then '_' else c)).filter
              memNameClass)))))

/-- `sanitize_runtime_name` (src/utils/validation.py lines 127-171). -/
def sanitize_runtime_name (name : List Char) (max_length : Nat) : List Char :=
  orDefault "agent".toList
    (truncateTail '_' max_length
      (forceLeadingAlpha "agent_".toList
        (stripChar '_'
          (collapseRuns '_'
            (name.map (fun c => if isAsciiAlnum c then c else '_'))))))

/-- `sanitize_gateway_name` (src/utils/validation.py lines 174-219). -/
def sanitize_gateway_name (name : List Char) (max_length : Nat) : List Char :=
  orDefault "gateway".toList
    (truncateTail '-' max_length
      (forceLeadingAlnumGw
        (stripChar '-'
          (collapseRuns '-'
            (name.map (fun c => if isAsciiAlnum c || c = '-' then c else '-'))))))

/-- `sanitize_gateway_target_name` (src/utils/validation.py lines 222-262). -/
def sanitize_gateway_target_name (name : List Char) (max_length : Nat) : List Char :=
  orDefault "tool".toList
    (truncateTail '-' max_length
      (stripChar '-'
        (collapseRuns '-'
          (name.map (fun c => if isAsciiAlnum c || c = '-' then c else '-')))))

/-- Characters allowed in a URL scheme after the leading letter
(`urllib.parse`). -/
def isSchemeChar (c : Char) : Bool :=
  isAsciiAlnum c || c = '+' || c = '-' || c = '.'

/-- Split a string at the first `:`, if any. -/
def splitFirstColon : List Char → Option (List Char × List Char)
  | [] => none
  | c :: t =>
    if c = ':' then some ([], t)
    else match splitFirstColon t with
      | none => none
      | some (a, b) => some (c :: a, b)

/-- `urllib.parse.urlparse` scheme/rest split: a scheme is recognised when a
`:` is present and the text before it is a letter followed by
letters/digits/`+`/`-`/`.`; the scheme is lowercased. -/
def urlSplitScheme (u : List Char) : List Char × List Char :=
  match splitFirstColon u with
  | none => ([], u)
  | some (pre, post) =>
    if pre ≠ [] ∧ isAsciiAlpha (pre.headD ' ') = true ∧
        pre.all isSchemeChar = true then
      (pre.map asciiLower, post)
    else ([], u)

def urlScheme (u : List Char) : List Char := (urlSplitScheme u).1

/-- `urlparse(...).netloc`: present only after a `//`, up to `/`, `?` or
`#`. -/
def urlNetloc (u : List Char) : List Char :=
  let rest := (urlSplitScheme u).2
  if "//".toList.isPrefixOf rest then
    (rest.drop 2).takeWhile (fun c => !(c = '/' || c = '?' || c = '#'))
  else []

/-- `validate_a2a_url` (src/utils/validation.py lines 513-572); `some msg`
models a raised `ValidationError`. -/
def validate_a2a_url (url : List Char) : Option (List Char) :=
  if url = [] then some "A2A URL cannot be empty".toList
  else if pyStrip url = [] then
    some "A2A URL cannot be only whitespace".toList
  else if urlScheme url ≠ "https".toList then
    some "A2A URL must use HTTPS protocol".toList
  else if urlNetloc url = [] then
    some "A2A URL must have a valid hostname".toList
  else none

/-- `A2AConnection` dataclass (src/services/a2a_service.py lines 61-148). -/
structure A2AConnection where
  source_agent_id : List Char
  target_agent_id : List Char
  target_a2a_url : List Char
  target_agent_name : List Char
  deriving DecidableEq

/-- Error taxonomy of the A2A service. -/
inductive A2AErr where
  | validation (msg : List Char)
  | connection (msg : List Char)
  | discovery (msg : List Char)
  deriving DecidableEq

/-- `A2AConnection.__post_init__` together with its `_validate_a2a_url`
(src/services/a2a_service.py lines 88-139); `some e` models a raised
`A2AValidationError`. -/
def a2aConnectionValidate (c : A2AConnection) : Option A2AErr :=
  if pyStrip c.source_agent_id = [] then
    some (.validation "source_agent_id cannot be empty".toList)
  else if pyStrip c.target_agent_id = [] then
    some (.validation "target_agent_id cannot be empty".toList)
  else if pyStrip c.target_a2a_url = [] then
    some (.validation "A2A URL cannot be empty".toList)
  else if urlScheme c.target_a2a_url ≠ "https".toList then
    some (.validation "A2A URL must use HTTPS protocol".toList)
  else if urlNetloc c.target_a2a_url = [] then
    some (.validation "A2A URL must have a valid hostname".toList)
  else if pyStrip c.target_agent_name = [] then
    some (.validation "target_agent_name cannot be empty".toList)
  else none

/-- `AgentRecord` of the external agent registry (read-only collaborator). -/
structure AgentRecord where
  agent_id : List Char
  agent_name : List Char
  agent_arn : List Char
  status : List Char
  a2a_url : Option (List Char)
  capabilities : List (List Char)

/-- The registry is an oracle: `get_agent(id)`. -/
def AgentRegistry : Type := List Char → Option AgentRecord

/-- The service's `self._connections` dict, keyed by source agent id. -/
def ConnMap : Type := List (List Char × List A2AConnection)

def connLookup : ConnMap → List Char → Option (List A2AConnection)
  | [], _ => none
  | (k', v) :: t, k => if k' = k then some v else connLookup t k

def connSet : ConnMap → List Char → List A2AConnection → ConnMap
  | [], k, v => [(k, v)]
  | (k', v') :: t, k, v =>
    if k' = k then (k, v) :: t else (k', v') :: connSet t k v

/-- `get_connections` (src/services/a2a_service.py lines 329-353):
`self._connections.get(agent_id, [])`. -/
def get_connections (m : ConnMap) (agent_id : List Char) :
    List A2AConnection :=
  (connLookup m agent_id).getD []

/-- `_update_agent_environment` (src/services/a2a_service.py lines
420-478): log-only push of `KNOWN_AGENT_URLS`; raises `A2AConnectionError`
when the source agent is missing from the registry. -/
def update_agent_environment (registry : AgentRegistry) (m : ConnMap)
    (agent_id : List Char) : Option A2AErr :=
  if get_connections m agent_id = [] then none
  else match registry agent_id with
    | none =>
      some (.connection ("Agent not found in registry: ".toList ++ agent_id))
    | some _ => none

/-- `add_connection` (src/services/a2a_service.py lines 225-327); the pair
carries the raised-or-returned value and the post-call `_connections`
state. -/
def add_connection (registry : AgentRegistry) (m : ConnMap)
    (source_agent_id target_agent_id target_a2a_url : List Char) :
    Except A2AErr A2AConnection × ConnMap :=
  match validate_a2a_url target_a2a_url with
  | some msg =>
    (Except.error (.validation ("Invalid A2A URL: ".toList ++ msg)), m)
  | none =>
    match registry target_agent_id with
    | none =>
      (Except.error (.connection ("Target agent not found in registry: ".toList
        ++ target_agent_id)), m)
    | some target_agent =>
      let conn : A2AConnection :=
        ⟨source_agent_id, target_agent_id, target_a2a_url,
          target_agent.agent_name⟩
      match a2aConnectionValidate conn with
      | some e => (Except.error e, m)
      | none =>
        let existing := get_connections m source_agent_id
        let filtered :=
          existing.filter (fun c => !(c.target_agent_id = target_agent_id))
        let m2 := connSet m source_agent_id (filtered ++ [conn])
        match update_agent_environment registry m2 source_agent_id with
        | some e => (Except.error e, m2)
        | none => (Except.ok conn, m2)

/-- The module-level `_gateway_tracker` dict. -/
structure GatewayTracker where
  created : Bool
  gateway_id : Option (List Char)
  gateway_name : Option (List Char)
  deriving DecidableEq

/-- `{'created': False, 'gateway_id': None, 'gateway_name': None}`. -/
def initialGatewayTracker : GatewayTracker := ⟨false, none, none⟩

/-- Successful control-plane `create_gateway` response fields. -/
structure GatewayResponse where
  gatewayId : List Char
  gatewayUrl : Option (List Char)

/-- Outcomes of the `create_gateway` tool (the formatted strings carry
exactly these data). -/
inductive GatewayOutcome where
  | duplicateBlocked (gateway_name : Option (List Char))
      (gateway_id : Option (List Char))
  | configError
  | created (name : List Char) (gateway_id : List Char) (mcp_url : List Char)
  | failed

/-- `create_gateway` (src/builder_agent/tools/create_gateway.py lines
27-124).  `cp` is the control-plane oracle, applied to the sanitized name
and the description; `none` models a raised `ClientError`.  The `Nat`
counts control-plane create-gateway calls made by this invocation. -/
def create_gateway (execution_role : Option (List Char))
    (cp : List Char → List Char → Option GatewayResponse)
    (tracker : GatewayTracker) (name description : List Char) :
    GatewayOutcome × GatewayTracker × Nat :=
  if tracker.created then
    (.duplicateBlocked tracker.gateway_name tracker.gateway_id, tracker, 0)
  else
    match execution_role with
    | none => (.configError, tracker, 0)
    | some _ =>
      match cp (sanitize_gateway_name name 48) description with
      | none => (.failed, tracker, 1)
      | some resp =>
        (.created name resp.gatewayId (resp.gatewayUrl.getD "N/A".toList),
         ⟨true, some resp.gatewayId, some name⟩, 1)

/-! ## 4.5 Agent Deployment Manager: mode derivation
(`src/builder_agent/tools/deploy_agent.py` lines 107-117) -/

inductive AgentMode where
  | server
  | client
  deriving DecidableEq

/-- Python truthiness of the optional `gateway_id : str` argument. -/
def pyTruthyStr : Option (List Char) → Bool
  | none => false
  | some s => !s.isEmpty

/-- Python truthiness of the optional `known_agent_ids : list` argument
(the source also re-checks `len(known_agent_ids) > 0`, which is
equivalent). -/
def pyTruthyList : Option (List (List Char)) → Bool
  | none => false
  | some l => !l.isEmpty

/-- The mode derivation inside `deploy_agent`:
`if gateway_id: server / elif known_agent_ids and len(...) > 0: client /
else: server`. -/
def agent_mode (gateway_id : Option (List Char))
    (known_agent_ids : Option (List (List Char))) : AgentMode :=
  if pyTruthyStr gateway_id then .server
  else if pyTruthyList known_agent_ids then .client
  else .server

/-- One property entry of a JSON-Schema `properties` map. -/
structure PropSpec where
  type_ : Option (List Char)
  description : Option (List Char)
  deriving DecidableEq

/-- A tool input schema (JSON object modelled with optional keys). -/
structure ToolSchema where
  type_ : Option (List Char)
  properties : Option (List (List Char × PropSpec))
  required : Option (List (List Char))
  deriving DecidableEq

/-- Valid property types of `validate_tool_schema`. -/
def validTypes : List (List Char) :=
  ["string".toList, "number".toList, "integer".toList, "boolean".toList,
   "array".toList, "object".toList, "null".toList]

/-- Per-property loop of `validate_tool_schema`: first failure wins. -/
def firstPropErr : List (List Char × PropSpec) → Option (List Char)
  | [] => none
  | (pname, pspec) :: rest =>
    match pspec.type_ with
    | none =>
      some ("Property '".toList ++ pname ++ "' must have 'type' field".toList)
    | some pt =>
      if pt ∈ validTypes then firstPropErr rest
      else some ("Property '".toList ++ pname ++ "' has invalid type".toList)

/-- `required`-entries loop of `validate_tool_schema`. -/
def firstReqErr (props : List (List Char × PropSpec)) :
    List (List Char) → Option (List Char)
  | [] => none
  | r :: rest =>
    if r ∈ props.map Prod.fst then firstReqErr props rest
    else some ("Required property '".toList ++ r ++
      "' not found in properties".toList)

/-- `validate_tool_schema` (src/utils/validation.py lines 648-737);
`some msg` models a raised `ValidationError`. -/
def validate_tool_schema (schema : ToolSchema) : Option (List Char) :=
  match schema.type_ with
  | none => some "Tool schema must have 'type' field".toList
  | some t =>
    if t ≠ "object".toList then
      some "Tool schema type must be 'object'".toList
    else match schema.properties with
      | none => some "Tool schema must have 'properties' field".toList
      | some props =>
        if props = [] then
          some "Tool schema 'properties' cannot be empty".toList
        else match firstPropErr props with
          | some e => some e
          | none =>
            match schema.required with
            | none => none
            | some reqs => firstReqErr props reqs

/-- `LambdaToolSpec` dataclass (src/services/lambda_service.py lines
23-29). -/
structure LambdaToolSpec where
  name : List Char
  description : List Char
  input_schema : ToolSchema
  handler_code : List Char

/-- A tool definition as parsed from the `tools_spec` JSON array: a dict
whose required keys may be absent. -/
structure ToolDef where
  name : Option (List Char)
  description : Option (List Char)
  input_schema : Option ToolSchema
  handler_code : Option (List Char)

/-- `tool_def.get('name', 'unknown')`. -/
def toolDefName (t : ToolDef) : List Char := t.name.getD "unknown".toList

/-- Result of `LambdaService.create_tool_function`. -/
structure LambdaFnResult where
  function_arn : List Char
  function_name : List Char

/-- Outcome of the `lambda_client.add_permission` call: success, a
`ResourceConflictException`, or any other exception. -/
inductive PermOutcome where
  | ok
  | conflict
  | failed (msg : List Char)

/-- Control-plane oracle for the batch registration loop: packaging
(`create_tool_function`), gateway-target registration
(`create_gateway_target`, applied to the gateway id and sanitized target
name), and the invoke-permission grant. -/
structure ToolsEnv where
  createToolFunction : LambdaToolSpec → Except (List Char) LambdaFnResult
  createGatewayTarget : List Char → List Char → Except (List Char) Unit
  addPermission : List Char → PermOutcome

/-- Body of the per-tool `try` block (src/builder_agent/tools/
create_lambda_tools.py lines 95-170): `ok` is appended to
`created_tools`, `error` to `failed_tools`.  All `add_permission`
outcomes are swallowed (conflict is logged as already-exists, any other
failure as a warning). -/
def processTool (env : ToolsEnv) (gateway_id : List Char)
    (tool_def : ToolDef) :
    Except (List Char) (List Char × List Char × List Char) :=
  match tool_def.name, tool_def.description, tool_def.input_schema,
      tool_def.handler_code with
  | some nm, some desc, some schema, some hc =>
    match env.createToolFunction ⟨nm, desc, schema, hc⟩ with
    | .error e => .error e
    | .ok fn =>
      match env.createGatewayTarget gateway_id
          (sanitize_gateway_target_name nm 100) with
      | .error e => .error e
      | .ok _ =>
        match env.addPermission fn.function_name with
        | .ok => .ok (nm, fn.function_arn, desc)
        | .conflict => .ok (nm, fn.function_arn, desc)
        | .failed _ => .ok (nm, fn.function_arn, desc)
  | _, _, _, _ => .error "Tool missing required fields".toList

/-- The `for tool_def in tools` loop: collects created and failed
entries in order, never aborting on a failure. -/
def createToolsLoop (env : ToolsEnv) (gateway_id : List Char) :
    List ToolDef →
    List (List Char × List Char × List Char) × List (List Char × List Char)
  | [] => ([], [])
  | t :: rest =>
    let tailResult := createToolsLoop env gateway_id rest
    match processTool env gateway_id t with
    | .ok entry => (entry :: tailResult.1, tailResult.2)
    | .error e => (tailResult.1, (toolDefName t, e) :: tailResult.2)

/-- The three distinguishable batch outcomes (plus the configuration
error reported before any processing). -/
inductive ToolsReport where
  | configError
  | success (tools : List (List Char × List Char × List Char))
  | partialFailure (created : List (List Char × List Char × List Char))
      (failed : List (List Char × List Char))
  | allFailed

/-- `create_lambda_tools` (src/builder_agent/tools/create_lambda_tools.py
lines 22-222), from the point where `tools_spec` has parsed into a list
of tool definitions. -/
def create_lambda_tools (execution_role : Option (List Char))
    (env : ToolsEnv) (gateway_id : List Char) (tools : List ToolDef) :
    ToolsReport :=
  match execution_role with
  | none => .configError
  | some _ =>
    let result := createToolsLoop env gateway_id tools
    if result.1 ≠ [] ∧ result.2 = [] then .success result.1
    else if result.2 ≠ [] then .partialFailure result.1 result.2
    else .allFailed

/-- Concrete sample data used by the batch-registration counterexample. -/
def sampleSchemaOk : ToolSchema :=
  ⟨some "object".toList,
   some [("a".toList, ⟨some "number".toList, some "first arg".toList⟩)],
   some ["a".toList]⟩

/-- A schema with an empty `properties` map: rejected by
`validate_tool_schema`. -/
def sampleSchemaEmptyProps : ToolSchema :=
  ⟨some "object".toList, some [], none⟩

def sampleToolA : ToolDef :=
  ⟨some "tool-a".toList, some "first tool".toList, some sampleSchemaOk,
   some "return 1".toList⟩

def sampleToolBad : ToolDef :=
  ⟨some "tool-bad".toList, some "bad tool".toList,
   some sampleSchemaEmptyProps, some "return 2".toList⟩

def sampleToolC : ToolDef :=
  ⟨some "tool-c".toList, some "third tool".toList, some sampleSchemaOk,
   some "return 3".toList⟩

/-- A control plane that accepts every request. -/
def envAllOk : ToolsEnv :=
  ⟨fun _ => .ok ⟨"arn-x".toList, "fn-x".toList⟩,
   fun _ _ => .ok (), fun _ => .ok⟩

/-- `str.split('\n')`. -/
def splitLines : List Char → List (List Char)
  | [] => [[]]
  | c :: t =>
    let r := splitLines t
    if c = '\n' then [] :: r
    else match r with
      | [] => [[c]]
      | l :: ls => (c :: l) :: ls

/-- `'\n'.join(...)`. -/
def joinLines : List (List Char) → List Char
  | [] => []
  | [l] => l
  | l :: ls => l ++ '\n' :: joinLines ls

/-- Python regex `\w` (ASCII part). -/
def isWordChar (c : Char) : Bool := isAsciiAlnum c || c = '_'

/-- Characters of a dotted module path, `[\w\.]`. -/
def isImportNameChar (c : Char) : Bool := isWordChar c || c = '.'

/-- Full-line match of `^\s*import\s+[\w\.]+\s*$` (applied per line:
both regexes are `re.MULTILINE` full-line patterns). -/
def plainImportLine (l : List Char) : Bool :=
  let l1 := l.dropWhile isWsChar
  if "import".toList.isPrefixOf l1 then
    let l2 := l1.drop 6
    match l2 with
    | [] => false
    | c :: _ =>
      if isWsChar c then
        let l3 := l2.dropWhile isWsChar
        let nm := l3.takeWhile isImportNameChar
        let l4 := l3.drop nm.length
        !nm.isEmpty && l4.all isWsChar
      else false
  else false

/-- Full-line match of `^\s*from\s+[\w\.]+\s+import\s+.+$`. -/
def fromImportLine (l : List Char) : Bool :=
  let l1 := l.dropWhile isWsChar
  if "from".toList.isPrefixOf l1 then
    let l2 := l1.drop 4
    match l2 with
    | [] => false
    | c :: _ =>
      if isWsChar c then
        let l3 := l2.dropWhile isWsChar
        let nm := l3.takeWhile isImportNameChar
        let l4 := l3.drop nm.length
        if nm.isEmpty then false
        else
          match l4 with
          | [] => false
          | c2 :: _ =>
            if isWsChar c2 then
              let l5 := l4.dropWhile isWsChar
              if "import".toList.isPrefixOf l5 then
                let l6 := l5.drop 6
                match l6 with
                | [] => false
                | c3 :: _ =>
                  isWsChar c3 && !(l6.dropWhile isWsChar).isEmpty
              else false
            else false
      else false
  else false

/-- Import removal and blank-line cleanup
(src/services/lambda_service.py lines 176-184): both import regexes
delete whole lines; then
`'\n'.join(line for line in ... if line.strip() or not line)` and
`.lstrip('\n')`. -/
def stripImports (code : List Char) : List Char :=
  let ls1 := (splitLines code).map (fun l => if plainImportLine l then [] else l)
  let ls2 := ls1.map (fun l => if fromImportLine l then [] else l)
  let ls3 := ls2.filter (fun l => !(pyStrip l).isEmpty || l.isEmpty)
  lstripChar '\n' (joinLines ls3)

/-- The recognized numeric field names, in source order. -/
def numericFields : List (List Char) :=
  ["amount".toList, "price".toList, "cost".toList, "total".toList,
   "quantity".toList, "days".toList, "hours".toList, "count".toList,
   "value".toList, "balance".toList]

def quoteCharB (c : Char) : Bool := c = '\'' || c = '"'

/-- Prefix stripping: `some r` iff the pattern list is an exact prefix. -/
def stripPre : List Char → List Char → Option (List Char)
  | [], s => some s
  | _ :: _, [] => none
  | a :: f, b :: s => if a = b then stripPre f s else none

/-- Regex `\s*`. -/
def dropWs (s : List Char) : List Char := s.dropWhile isWsChar

/-- The captured pieces of one match of the numeric-field rewrite pattern
`([\'"])FIELD\1\s*:\s*parameters\.get\(([\'"])FIELD\2(,\s*[^)]+)?\)`. -/
structure FieldMatch where
  q1 : Char
  q2 : Char
  dflt : List Char
  rest : List Char

/-- Attempt to match the rewrite pattern at the head of `s`. -/
def matchField (field : List Char) (s : List Char) : Option FieldMatch :=
  match s with
  | [] => none
  | q1 :: s1 =>
    if quoteCharB q1 then
      match stripPre field s1 with
      | none => none
      | some s2 =>
        match s2 with
        | [] => none
        | q1x :: s3 =>
          if q1x = q1 then
            match dropWs s3 with
            | [] => none
            | c4 :: s5 =>
              if c4 = ':' then
                match stripPre "parameters.get(".toList (dropWs s5) with
                | none => none
                | some s7 =>
                  match s7 with
                  | [] => none
                  | q2 :: s8 =>
                    if quoteCharB q2 then
                      match stripPre field s8 with
                      | none => none
                      | some s9 =>
                        match s9 with
                        | [] => none
                        | q2x :: s10 =>
                          if q2x = q2 then
                            match s10 with
                            | [] => none
                            | c10 :: s11 =>
                              if c10 = ')' then some ⟨q1, q2, [], s11⟩
                              else if c10 = ',' then
                                let mid :=
                                  s11.takeWhile (fun c => !(c = ')'))
                                if mid.isEmpty then none
                                else match s11.drop mid.length with
                                  | [] => none
                                  | c12 :: s12 =>
                                    if c12 = ')' then
                                      some ⟨q1, q2, c10 :: mid, s12⟩
                                    else none
                              else none
                          else none
                    else none
              else none
          else none
  else none

/-- The replacement produced by `replace_with_decimal`
(src/services/lambda_service.py lines 197-201). -/
def replField (field : List Char) (m : FieldMatch) : List Char :=
  m.q1 :: field ++ m.q1 :: ": Decimal(str(parameters.get(".toList ++
    m.q2 :: field ++ m.q2 :: m.dflt ++ ")))".toList

/-- Fuelled scanner for `re.sub`: leftmost non-overlapping matches are
replaced, scanning resumes after each replaced span, replacements are not
re-scanned. -/
def subAllF (field : List Char) : Nat → List Char → List Char
  | 0, s => s
  | Nat.succ n, s =>
    match matchField field s with
    | some m => replField field m ++ subAllF field n m.rest
    | none =>
      match s with
      | [] => []
      | c :: t => c :: subAllF field n t

/-- `re.sub(pattern_for_field, replace_with_decimal, handler_code)`. -/
def subAll (field : List Char) (s : List Char) : List Char :=
  subAllF field s.length s

/-- `textwrap.indent(handler_code, '        ')`: prefix every line whose
strip is non-empty. -/
def indent8 (code : List Char) : List Char :=
  joinLines ((splitLines code).map
    (fun l => if (pyStrip l).isEmpty then l else "        ".toList ++ l))

/-- Fixed text of the generated module between `imports_str` and the first
`tool_spec.name` splice. -/
def skelA : List Char :=
  ("\n\nlogger = logging.getLogger()\nlogger.setLevel(logging.INFO)\n\n" ++
   "def handler(event, context):\n    \"\"\"Lambda handler for ").toList

/-- Fixed text between the two `tool_spec.name` splices. -/
def skelB : List Char :=
  " tool\"\"\"\n    try:\n        logger.info(f\"Tool ".toList

/-- Fixed text between the second `tool_spec.name` splice and the indented
handler body. -/
def skelC : List Char :=
  (" invoked with event: \x7bjson.dumps(event)\x7d\")\n        \n" ++
   "        # Extract parameters\n" ++
   "        parameters = event.get('parameters', event)\n        \n" ++
   "        # Execute tool logic\n").toList

/-- Fixed text after the indented handler body. -/
def skelD : List Char :=
  ("\n        \n    except Exception as e:\n" ++
   "        logger.error(f\"Tool execution failed: \x7bstr(e)\x7d\", exc_info=True)\n" ++
   "        return \x7b\n            'statusCode': 500,\n" ++
   "            'body': json.dumps(\x7b'error': str(e)\x7d)\n        \x7d\n").toList

/-- Import block prepended on the trusted complete-implementation fast
path when `import json` is absent. -/
def completeHeader : List Char :=
  ("import json\nimport logging\n\nlogger = logging.getLogger()\n" ++
   "logger.setLevel(logging.INFO)\n\n").toList

/-- `LambdaService._generate_lambda_code`
(src/services/lambda_service.py lines 138-245). -/
def generate_lambda_code (tool_spec : LambdaToolSpec) : List Char :=
  let handler_code := pyStrip tool_spec.handler_code
  if containsB "def handler".toList handler_code ||
      containsB "def lambda_handler".toList handler_code then
    if !containsB "import json".toList handler_code then
      completeHeader ++ handler_code
    else handler_code
  else
    let handler_code :=
      if (pyStrip handler_code).isEmpty then
        "pass  # No implementation provided".toList
      else handler_code
    let needs_boto3 := containsB "boto3".toList handler_code ||
      containsB "dynamodb".toList (handler_code.map asciiLower)
    let needs_datetime := containsB "datetime".toList handler_code
    let needs_os := containsB "os.environ".toList handler_code ||
      containsB "os.getenv".toList handler_code
    let needs_decimal := containsB "Decimal".toList handler_code ||
      containsB "dynamodb".toList (handler_code.map asciiLower) ||
      containsB "put_item".toList handler_code
    let handler_code := stripImports handler_code
    let handler_code :=
      if containsB "put_item".toList handler_code && needs_decimal then
        numericFields.foldl (fun acc f => subAll f acc) handler_code
      else handler_code
    let imports := ["import json".toList, "import logging".toList] ++
      (if needs_boto3 then ["import boto3".toList] else []) ++
      (if needs_datetime then ["from datetime import datetime".toList]
        else []) ++
      (if needs_os then ["import os".toList] else []) ++
      (if needs_decimal then ["from decimal import Decimal".toList] else [])
    joinLines imports ++ skelA ++ tool_spec.name ++ skelB ++
      tool_spec.name ++ skelC ++ indent8 handler_code ++ skelD

/-- The raw assignment text recognised by the numeric-field pattern, with
canonical `": "` spacing as in `"amount": parameters.get("amount")`. -/
def rawAssign (field : List Char) (q1 q2 : Char) (dflt : List Char) :
    List Char :=
  q1 :: field ++ q1 :: ": parameters.get(".toList ++ q2 :: field ++
    q2 :: dflt ++ [')']

/-- The rewritten assignment text. -/
def replAssign (field : List Char) (q1 q2 : Char) (dflt : List Char) :
    List Char :=
  q1 :: field ++ q1 :: ": Decimal(str(parameters.get(".toList ++
    q2 :: field ++ q2 :: dflt ++ ")))".toList

/-- Well-formed optional default of the pattern: absent, or a comma
followed by at least one character free of `)`, quotes and newlines. -/
def dfltOkB : List Char → Bool
  | [] => true
  | c :: ds =>
    c = ',' && !ds.isEmpty &&
      ds.all (fun c => !(c = ')') && !quoteCharB c && !(c = '\n'))

/-- A recognised numeric field name: non-empty, all lowercase letters. -/
def fieldOkB (f : List Char) : Bool := !f.isEmpty && f.all isLowerAlpha

/-- No suffix of `s` matches the numeric-field pattern. -/
def NoM (f s : List Char) : Prop :=
  ∀ y, y <:+ s → matchField f y = none

/-- `stripPreMismB f y = true` iff prefix-stripping `f` from `y` fails on
an actual character mismatch (so it fails for every extension of `y`). -/
def stripPreMismB : List Char → List Char → Bool
  | [], _ => false
  | _ :: _, [] => false
  | a :: f2, b :: s => if a = b then stripPreMismB f2 s else true

/-- Decidable sufficient condition: every nonempty suffix either starts
with a non-quote character, or its tail refutes the field prefix on a
character mismatch inside the available text. -/
def suffixSafeB (f : List Char) : List Char → Bool
  | [] => true
  | c :: y => (!quoteCharB c || stripPreMismB f y) && suffixSafeB f y

theorem containsB_iff (p s : List Char) : containsB p s = true ↔ p <:+: s := by
  induction s with
  | nil =>
    simp [containsB, List.isEmpty_iff, List.infix_nil]
  | cons c t ih =>
    simp only [containsB, Bool.or_eq_true, ih]
    constructor
    · rintro (h | h)
      · exact (List.IsPrefix.isInfix (List.isPrefixOf_iff_prefix.mp h))
      · exact List.infix_cons h
    · intro h
      rcases h with ⟨a, b, hab⟩
      match a, hab with
      | [], hab => exact Or.inl (List.isPrefixOf_iff_prefix.mpr ⟨b, hab⟩)
      | x :: a', hab =>
        right
        rw [List.cons_append] at hab
        injection hab with h1 h2
        exact ⟨a', b, h2⟩

theorem collapseRuns_sublist (c : Char) (s : List Char) :
    (collapseRuns c s).Sublist s := by
  induction s with
  | nil => simp [collapseRuns]
  | cons a t ih =>
    cases t with
    | nil => simp [collapseRuns]
    | cons b t' =>
      rw [collapseRuns]
      split
      · exact (ih).trans (List.sublist_cons_self a (b :: t'))
      · exact List.Sublist.cons₂ a ih

theorem collapseRuns_mem {c x : Char} {s : List Char}
    (h : x ∈ collapseRuns c s) : x ∈ s :=
  (collapseRuns_sublist c s).mem h

theorem collapseRuns_cons_head (c : Char) (t : List Char) :
    ∀ b, ∃ u, collapseRuns c (b :: t) = b :: u := by
  induction t with
  | nil => exact fun b => ⟨[], rfl⟩
  | cons d t' ih =>
    intro b
    rw [collapseRuns]
    split
    · rename_i hbd
      simp only [Bool.and_eq_true, decide_eq_true_eq] at hbd
      obtain ⟨u, hu⟩ := ih d
      exact ⟨u, by rw [hu, hbd.1, hbd.2]⟩
    · exact ⟨collapseRuns c (d :: t'), rfl⟩

theorem collapseRuns_noRun (c : Char) (s : List Char) :
    noRunB c (collapseRuns c s) = true := by
  induction s with
  | nil => simp [collapseRuns, noRunB]
  | cons a t ih =>
    cases t with
    | nil => simp [collapseRuns, noRunB]
    | cons b t' =>
      rw [collapseRuns]
      split
      · exact ih
      · rename_i hab
        obtain ⟨u, hu⟩ := collapseRuns_cons_head c t' b
        rw [hu]
        rw [hu] at ih
        simp only [noRunB, Bool.and_eq_true, Bool.not_eq_true']
        exact ⟨by simpa using hab, ih⟩

theorem collapseRuns_eq_self {c : Char} {s : List Char}
    (h : noRunB c s = true) : collapseRuns c s = s := by
  induction s with
  | nil => rfl
  | cons a t ih =>
    cases t with
    | nil => rfl
    | cons b t' =>
      simp only [noRunB, Bool.and_eq_true, Bool.not_eq_true'] at h
      rw [collapseRuns, if_neg (by simp [h.1]), ih h.2]

theorem noRunB_iff (c : Char) (s : List Char) :
    noRunB c s = true ↔ ¬ ([c, c] <:+: s) := by
  induction s with
  | nil =>
    simp [noRunB, List.infix_nil]
  | cons a t ih =>
    cases t with
    | nil =>
      simp only [noRunB, true_iff]
      intro h
      have := h.length_le
      simp at this
    | cons b t' =>
      simp only [noRunB, Bool.and_eq_true, Bool.not_eq_true', ih,
        List.infix_cons_iff]
      constructor
      · rintro ⟨h1, h2⟩ (hp | hi)
        · rcases hp with ⟨r, hr⟩
          simp only [List.cons_append, List.nil_append, List.cons.injEq] at hr
          obtain ⟨h1eq, h2eq, -⟩ := hr
          rw [← h1eq, ← h2eq] at h1
          simp at h1
        · exact h2 hi
      · intro h
        refine ⟨?_, fun hi => h (Or.inr hi)⟩
        by_contra hcon
        simp only [Bool.not_eq_false, Bool.and_eq_true, decide_eq_true_eq]
          at hcon
        exact h (Or.inl ⟨t', by rw [hcon.1, hcon.2]; rfl⟩)

theorem noRunB_infix {c : Char} {s t : List Char}
    (hinf : t <:+: s) (h : noRunB c s = true) : noRunB c t = true := by
  rw [noRunB_iff] at h ⊢
  exact fun hcc => h (hcc.trans hinf)

theorem noRunB_tail {c a : Char} {t : List Char}
    (h : noRunB c (a :: t) = true) : noRunB c t = true :=
  noRunB_infix (List.infix_cons (List.infix_refl t)) h

theorem noRunB_append {c : Char} {a b : List Char}
    (ha : noRunB c a = true) (hb : noRunB c b = true)
    (hj : ∀ (h1 : a ≠ []) (h2 : b ≠ []), a.getLast h1 = c → b.head h2 = c →
      False) :
    noRunB c (a ++ b) = true := by
  induction a with
  | nil => simpa using hb
  | cons x xs ih =>
    cases xs with
    | nil =>
      cases b with
      | nil => simpa using ha
      | cons y b' =>
        simp only [List.singleton_append, noRunB, Bool.and_eq_true,
          Bool.not_eq_true']
        refine ⟨?_, hb⟩
        by_contra hcon
        simp only [Bool.not_eq_false, Bool.and_eq_true, decide_eq_true_eq]
          at hcon
        exact hj (by simp) (by simp) (by simp [hcon.1]) (by simp [hcon.2])
    | cons x2 xs' =>
      simp only [List.cons_append, noRunB, Bool.and_eq_true] at ha ⊢
      refine ⟨ha.1, ?_⟩
      have := ih ha.2 (fun h1 h2 hl hh => hj (by simp) h2 (by
        rwa [List.getLast_cons (by simp)] ) hh)
      simpa using this

/-! ## 4.1 Name/Identifier Sanitizer (`src/utils/validation.py`) -/

theorem prefix_head {α : Type} {a c : α} {u t : List α}
    (h : a :: u <+: c :: t) : a = c := by
  rcases h with ⟨r, hr⟩
  rw [List.cons_append] at hr
  injection hr

theorem rdropWhile_shape {p : Char → Bool} {c : Char} {t : List Char}
    (hc : p c = false) :
    ∃ u, List.rdropWhile p (c :: t) = c :: u ∧ (c :: u) <+: (c :: t) := by
  have hne : List.rdropWhile p (c :: t) ≠ [] := by
    rw [Ne, List.rdropWhile_eq_nil_iff]
    intro hall
    have := hall c (by simp)
    rw [this] at hc
    exact absurd hc (by simp)
  have hpre : List.rdropWhile p (c :: t) <+: c :: t :=
    List.rdropWhile_prefix p _
  obtain ⟨a, u, hau⟩ : ∃ a u, List.rdropWhile p (c :: t) = a :: u := by
    cases h : List.rdropWhile p (c :: t) with
    | nil => exact absurd h hne
    | cons a u => exact ⟨a, u, rfl⟩
  rw [hau] at hpre
  have hac := prefix_head hpre
  subst hac
  exact ⟨u, hau, hpre⟩

theorem stripChar_shape {sep c : Char} {t : List Char} (hcne : c ≠ sep) :
    ∃ u, stripChar sep (c :: t) = c :: u ∧
      ((c :: u).getLast (by simp) ≠ sep) ∧ (c :: u) <+: (c :: t) := by
  have hpc : (decide (c = sep)) = false := by simpa using hcne
  have hdw : (c :: t).dropWhile (fun x => x = sep) = c :: t := by
    rw [List.dropWhile_cons, if_neg (by simpa using hcne)]
  obtain ⟨u, hu, hpre⟩ := rdropWhile_shape (p := fun x => x = sep) hpc
  refine ⟨u, ?_, ?_, hpre⟩
  · rw [stripChar, hdw, hu]
  · have hne : List.rdropWhile (fun x => x = sep) (c :: t) ≠ [] := by
      rw [hu]; simp
    have := List.rdropWhile_last_not (l := c :: t) (fun x => x = sep) hne
    simp only [hu] at this ⊢
    simpa using this

/-- `stripChar` on an arbitrary list: empty, or nonempty with both edges
free of `sep`, and an infix of the input. -/
theorem stripChar_cases (sep : Char) (s : List Char) :
    stripChar sep s = [] ∨
      ∃ c u, stripChar sep s = c :: u ∧ c ≠ sep ∧
        ((c :: u).getLast (by simp) ≠ sep) ∧ (c :: u) <:+: s := by
  cases hR : stripChar sep s with
  | nil => exact Or.inl rfl
  | cons a u =>
    have hpre : a :: u <+: s.dropWhile (fun x => x = sep) := by
      rw [← hR, stripChar]
      exact List.rdropWhile_prefix _ _
    have hdne : s.dropWhile (fun x => x = sep) ≠ [] := by
      intro h0
      rw [h0] at hpre
      exact absurd hpre.length_le (by simp)
    have hhead : (s.dropWhile (fun x => x = sep)).head hdne = a := by
      obtain ⟨r, hr⟩ := hpre
      have h5 : (s.dropWhile (fun x => x = sep)).head? = some a := by
        rw [← hr]
        rfl
      rw [List.head?_eq_head hdne] at h5
      exact Option.some.inj h5
    have hanot : a ≠ sep := by
      have h1 := List.head_dropWhile_not (l := s) (fun x => x = sep) hdne
      rw [hhead] at h1
      simpa using h1
    have hlast : (a :: u).getLast (by simp) ≠ sep := by
      have h2 : List.rdropWhile (fun x => x = sep)
          (s.dropWhile (fun x => x = sep)) = a :: u := by rw [← stripChar, hR]
      have h3 : List.rdropWhile (fun x => x = sep)
          (s.dropWhile (fun x => x = sep)) ≠ [] := by rw [h2]; simp
      have h4 := List.rdropWhile_last_not
        (l := s.dropWhile (fun x => x = sep)) (fun x => x = sep) h3
      simp only [h2] at h4
      simpa using h4
    have hinf : (a :: u) <:+: s :=
      hpre.isInfix.trans (List.dropWhile_suffix _).isInfix
    exact Or.inr ⟨a, u, rfl, hanot, hlast, hinf⟩

theorem truncateTail_shape (sep : Char) (maxLen : Nat) (hml : 0 < maxLen)
    (c : Char) (t : List Char) (hcne : c ≠ sep)
    (hlast : (c :: t).getLast (by simp) ≠ sep) :
    ∃ u, truncateTail sep maxLen (c :: t) = c :: u ∧
      (c :: u).length ≤ maxLen ∧
      ((c :: u).getLast (by simp) ≠ sep) ∧ (c :: u) <+: (c :: t) := by
  rw [truncateTail]
  split
  · rename_i hlt
    obtain ⟨m, rfl⟩ : ∃ m, maxLen = m + 1 := ⟨maxLen - 1, by omega⟩
    have htake : (c :: t).take (m + 1) = c :: t.take m := rfl
    rw [rstripChar, htake]
    obtain ⟨u, hu, hpre⟩ := rdropWhile_shape
      (p := fun x => x = sep) (t := t.take m) (by simpa using hcne)
    refine ⟨u, hu, ?_, ?_, ?_⟩
    · have := hpre.length_le
      simp only [List.length_cons] at this ⊢
      have htl : (t.take m).length ≤ m := by simp
      omega
    · have hne : List.rdropWhile (fun x => x = sep) (c :: t.take m) ≠ [] := by
        rw [hu]; simp
      have := List.rdropWhile_last_not (l := c :: t.take m)
        (fun x => x = sep) hne
      simp only [hu] at this ⊢
      simpa using this
    · exact hpre.trans (by
        have : c :: t.take m = (c :: t).take (m + 1) := rfl
        rw [this]; exact List.take_prefix _ _)
  · rename_i hge
    exact ⟨t, rfl, by simpa using Nat.le_of_not_lt hge, hlast,
      List.prefix_refl _⟩

theorem alpha_ne_hyphen {c : Char} (h : isAsciiAlpha c = true) : c ≠ '-' := by
  intro heq
  subst heq
  exact absurd h (by decide)

theorem alpha_ne_underscore {c : Char} (h : isAsciiAlpha c = true) :
    c ≠ '_' := by
  intro heq
  subst heq
  exact absurd h (by decide)

theorem alnum_ne_hyphen {c : Char} (h : isAsciiAlnum c = true) : c ≠ '-' := by
  intro heq
  subst heq
  exact absurd h (by decide)

theorem awsClass_alpha_lower {c : Char} (h : awsNameClass c = true)
    (ha : isAsciiAlpha c = true) : isLowerAlpha c = true := by
  simp only [awsNameClass, Bool.or_eq_true, decide_eq_true_eq] at h
  rcases h with (h | h) | h
  · exact h
  · exfalso
    simp only [isAsciiDigit, isAsciiAlpha, isLowerAlpha, isUpperAlpha,
      Bool.or_eq_true, Bool.and_eq_true, decide_eq_true_eq] at h ha
    rcases ha with ha | ha <;> omega
  · subst h
    exact absurd ha (by decide)

theorem memClass_alpha_lower {c : Char} (h : memNameClass c = true)
    (ha : isAsciiAlpha c = true) : isLowerAlpha c = true := by
  simp only [memNameClass, Bool.or_eq_true, decide_eq_true_eq] at h
  rcases h with (h | h) | h
  · exact h
  · exfalso
    simp only [isAsciiDigit, isAsciiAlpha, isLowerAlpha, isUpperAlpha,
      Bool.or_eq_true, Bool.and_eq_true, decide_eq_true_eq] at h ha
    rcases ha with ha | ha <;> omega
  · subst h
    exact absurd ha (by decide)

theorem getLastD_cons (c : Char) (v : List Char) (d : Char) :
    (c :: v).getLastD d = (c :: v).getLast (by simp) := by
  rw [List.getLastD_cons, List.getLast_eq_getLastD]

theorem map_id_on {f : Char → Char} {s : List Char}
    (h : ∀ c ∈ s, f c = c) : s.map f = s := by
  induction s with
  | nil => rfl
  | cons a t ih =>
    simp only [List.map_cons, h a (by simp), List.cons.injEq, true_and]
    exact ih fun c hc => h c (by simp [hc])

/-- Common tail of the aws/memory pipelines: starting from the
force-leading-alpha output with an alphabetic head, strip / truncate /
default keep the head, bound the length, avoid a trailing separator, and
produce an infix of the input list. -/
theorem stripTruncDefault_shape (sep : Char) (maxLen : Nat) (hml : 0 < maxLen)
    (c : Char) (t : List Char) (hcne : c ≠ sep) (d : List Char) :
    ∃ u, orDefault d (truncateTail sep maxLen (stripChar sep (c :: t))) =
        c :: u ∧
      (c :: u).length ≤ maxLen ∧
      ((c :: u).getLast (by simp) ≠ sep) ∧ (c :: u) <+: (c :: t) := by
  obtain ⟨u, hu, hlast, hpre⟩ := stripChar_shape (t := t) hcne
  obtain ⟨v, hv, hlen, hlast2, hpre2⟩ :=
    truncateTail_shape sep maxLen hml c u hcne hlast
  refine ⟨v, ?_, hlen, hlast2, hpre2.trans hpre⟩
  rw [hu, hv, orDefault, if_neg (by simp)]

theorem sanitize_aws_name_props (name : List Char) :
    sanitize_aws_name name 63 ≠ [] ∧
    (sanitize_aws_name name 63).length ≤ 63 ∧
    (∀ c ∈ sanitize_aws_name name 63, awsNameClass c = true) ∧
    isLowerAlpha ((sanitize_aws_name name 63).headD '-') = true ∧
    (sanitize_aws_name name 63).getLastD '-' ≠ '-' := by
  rw [sanitize_aws_name]
  set s3 := ((name.map asciiLower).map
      (fun c => if c = ' ' || c = '_' then '-' else c)).filter awsNameClass
    with hs3
  have hclass3 : ∀ c ∈ s3, awsNameClass c = true := by
    intro c hc
    exact List.of_mem_filter hc
  cases h4 : collapseRuns '-' s3 with
  | nil =>
    refine ⟨by decide, by decide, by decide, by decide, by decide⟩
  | cons c4 t4 =>
    have hclass4 : ∀ c ∈ c4 :: t4, awsNameClass c = true := by
      intro c hc
      exact hclass3 c (collapseRuns_mem (h4 ▸ hc))
    by_cases halpha : isAsciiAlpha c4 = true
    · rw [show forceLeadingAlpha ['a', '-'] (c4 :: t4) = c4 :: t4 by
        rw [forceLeadingAlpha, if_pos halpha]]
      obtain ⟨u, hu, hlen, hlast, hpre⟩ :=
        stripTruncDefault_shape '-' 63 (by norm_num) c4 t4
          (alpha_ne_hyphen halpha) "agent".toList
      rw [hu]
      refine ⟨by simp, hlen, ?_, ?_, ?_⟩
      · intro c hc
        exact hclass4 c (hpre.sublist.mem hc)
      · have : (c4 :: u).headD '-' = c4 := rfl
        rw [this]
        exact awsClass_alpha_lower (hclass4 c4 (by simp)) halpha
      · rw [getLastD_cons]
        exact hlast
    · rw [show forceLeadingAlpha ['a', '-'] (c4 :: t4) =
          'a' :: '-' :: c4 :: t4 by
        rw [forceLeadingAlpha, if_neg halpha]
        rfl]
      obtain ⟨u, hu, hlen, hlast, hpre⟩ :=
        stripTruncDefault_shape '-' 63 (by norm_num) 'a' ('-' :: c4 :: t4)
          (by decide) "agent".toList
      rw [hu]
      refine ⟨by simp, hlen, ?_, ?_, ?_⟩
      · intro c hc
        have hmem := hpre.sublist.mem hc
        simp only [List.mem_cons] at hmem
        rcases hmem with rfl | rfl | rfl | hmem
        · decide
        · decide
        · exact hclass4 c (by simp)
        · exact hclass4 c (by simp [hmem])
      · rfl
      · rw [getLastD_cons]
        exact hlast

theorem sanitize_memory_name_props (name : List Char) :
    sanitize_memory_name name 48 ≠ [] ∧
    (sanitize_memory_name name 48).length ≤ 48 ∧
    (∀ c ∈ sanitize_memory_name name 48, memNameClass c = true) ∧
    isLowerAlpha ((sanitize_memory_name name 48).headD '_') = true ∧
    (sanitize_memory_name name 48).getLastD '_' ≠ '_' := by
  rw [sanitize_memory_name]
  set s3 := ((name.map asciiLower).map
      (fun c => if c = ' ' || c = '-' then '_' else c)).filter memNameClass
    with hs3
  have hclass3 : ∀ c ∈ s3, memNameClass c = true := by
    intro c hc
    exact List.of_mem_filter hc
  cases h4 : collapseRuns '_' s3 with
  | nil =>
    refine ⟨by decide, by decide, by decide, by decide, by decide⟩
  | cons c4 t4 =>
    have hclass4 : ∀ c ∈ c4 :: t4, memNameClass c = true := by
      intro c hc
      exact hclass3 c (collapseRuns_mem (h4 ▸ hc))
    by_cases halpha : isAsciiAlpha c4 = true
    · rw [show forceLeadingAlpha ['a', '_'] (c4 :: t4) = c4 :: t4 by
        rw [forceLeadingAlpha, if_pos halpha]]
      obtain ⟨u, hu, hlen, hlast, hpre⟩ :=
        stripTruncDefault_shape '_' 48 (by norm_num) c4 t4
          (alpha_ne_underscore halpha) "agent_memory".toList
      rw [hu]
      refine ⟨by simp, hlen, ?_, ?_, ?_⟩
      · intro c hc
        exact hclass4 c (hpre.sublist.mem hc)
      · have : (c4 :: u).headD '_' = c4 := rfl
        rw [this]
        exact memClass_alpha_lower (hclass4 c4 (by simp)) halpha
      · rw [getLastD_cons]
        exact hlast
    · rw [show forceLeadingAlpha ['a', '_'] (c4 :: t4) =
          'a' :: '_' :: c4 :: t4 by
        rw [forceLeadingAlpha, if_neg halpha]
        rfl]
      obtain ⟨u, hu, hlen, hlast, hpre⟩ :=
        stripTruncDefault_shape '_' 48 (by norm_num) 'a' ('_' :: c4 :: t4)
          (by decide) "agent_memory".toList
      rw [hu]
      refine ⟨by simp, hlen, ?_, ?_, ?_⟩
      · intro c hc
        have hmem := hpre.sublist.mem hc
        simp only [List.mem_cons] at hmem
        rcases hmem with rfl | rfl | rfl | hmem
        · decide
        · decide
        · exact hclass4 c (by simp)
        · exact hclass4 c (by simp [hmem])
      · rfl
      · rw [getLastD_cons]
        exact hlast

theorem gwClass_alnum {c : Char} (h : gwClass c = true) (hne : c ≠ '-') :
    isAsciiAlnum c = true := by
  simp only [gwClass, Bool.or_eq_true, decide_eq_true_eq] at h
  rcases h with h | h
  · exact h
  · exact absurd h hne

theorem sanitize_runtime_name_props (name : List Char) :
    sanitize_runtime_name name 48 ≠ [] ∧
    (sanitize_runtime_name name 48).length ≤ 48 ∧
    (∀ c ∈ sanitize_runtime_name name 48, wordClass c = true) ∧
    isAsciiAlpha ((sanitize_runtime_name name 48).headD '_') = true ∧
    (sanitize_runtime_name name 48).getLastD '_' ≠ '_' ∧
    noRunB '_' (sanitize_runtime_name name 48) = true := by
  rw [sanitize_runtime_name]
  set s1 := name.map (fun c => if isAsciiAlnum c then c else '_') with hs1
  have hclass1 : ∀ c ∈ s1, wordClass c = true := by
    intro c hc
    rw [hs1] at hc
    obtain ⟨x, hx, rfl⟩ := List.mem_map.mp hc
    by_cases h : isAsciiAlnum x = true
    · simp only [if_pos h, wordClass, Bool.or_eq_true]
      exact Or.inl h
    · simp only [if_neg h]
      decide
  have hnoRun2 : noRunB '_' (collapseRuns '_' s1) = true := collapseRuns_noRun _ _
  have hclass2 : ∀ c ∈ collapseRuns '_' s1, wordClass c = true :=
    fun c hc => hclass1 c (collapseRuns_mem hc)
  rcases stripChar_cases '_' (collapseRuns '_' s1) with hnil |
    ⟨c, u, hcu, hcne, hlast, hinf⟩
  · rw [hnil]
    refine ⟨by decide, by decide, by decide, by decide, by decide, by decide⟩
  · rw [hcu]
    have hclassCU : ∀ x ∈ c :: u, wordClass x = true :=
      fun x hx => hclass2 x (hinf.sublist.mem hx)
    have hrunCU : noRunB '_' (c :: u) = true := noRunB_infix hinf hnoRun2
    by_cases halpha : isAsciiAlpha c = true
    · rw [show forceLeadingAlpha "agent_".toList (c :: u) = c :: u by
        rw [forceLeadingAlpha, if_pos halpha]]
      obtain ⟨v, hv, hlen, hlast2, hpre2⟩ :=
        truncateTail_shape '_' 48 (by norm_num) c u hcne hlast
      rw [hv, orDefault, if_neg (by simp)]
      refine ⟨by simp, hlen, ?_, ?_, ?_, ?_⟩
      · intro x hx
        exact hclassCU x (hpre2.sublist.mem hx)
      · exact halpha
      · rw [getLastD_cons]
        exact hlast2
      · exact noRunB_infix hpre2.isInfix hrunCU
    · have hshape : forceLeadingAlpha "agent_".toList (c :: u) =
          'a' :: 'g' :: 'e' :: 'n' :: 't' :: '_' :: c :: u := by
        rw [forceLeadingAlpha, if_neg halpha]
        rfl
      rw [hshape]
      have happ : ('a' :: 'g' :: 'e' :: 'n' :: 't' :: '_' :: c :: u) =
          "agent_".toList ++ (c :: u) := rfl
      have hlastLong :
          ('a' :: 'g' :: 'e' :: 'n' :: 't' :: '_' :: c :: u).getLast
            (by simp) ≠ '_' := by
        simp only [List.getLast_cons_cons]
        exact hlast
      obtain ⟨v, hv, hlen, hlast2, hpre2⟩ :=
        truncateTail_shape '_' 48 (by norm_num) 'a'
          ('g' :: 'e' :: 'n' :: 't' :: '_' :: c :: u) (by decide) hlastLong
      rw [hv, orDefault, if_neg (by simp)]
      have hrunLong :
          noRunB '_' ('a' :: 'g' :: 'e' :: 'n' :: 't' :: '_' :: c :: u) =
            true := by
        rw [happ]
        refine noRunB_append (by decide) hrunCU ?_
        intro h1 h2 hl hh
        simp only [List.head_cons] at hh
        exact hcne hh
      refine ⟨by simp, hlen, ?_, rfl, ?_, ?_⟩
      · intro x hx
        have hmem := hpre2.sublist.mem hx
        simp only [List.mem_cons] at hmem
        rcases hmem with rfl | rfl | rfl | rfl | rfl | rfl | rfl | hmem
        · decide
        · decide
        · decide
        · decide
        · decide
        · decide
        · exact hclassCU x (by simp)
        · exact hclassCU x (by simp [hmem])
      · rw [getLastD_cons]
        exact hlast2
      · exact noRunB_infix hpre2.isInfix hrunLong

theorem sanitize_gateway_name_props (name : List Char) :
    sanitize_gateway_name name 48 ≠ [] ∧
    (sanitize_gateway_name name 48).length ≤ 48 ∧
    (∀ c ∈ sanitize_gateway_name name 48, gwClass c = true) ∧
    isAsciiAlnum ((sanitize_gateway_name name 48).headD '-') = true ∧
    (sanitize_gateway_name name 48).getLastD '-' ≠ '-' ∧
    noRunB '-' (sanitize_gateway_name name 48) = true := by
  rw [sanitize_gateway_name]
  set s1 := name.map (fun c => if isAsciiAlnum c || c = '-' then c else '-')
    with hs1
  have hclass1 : ∀ c ∈ s1, gwClass c = true := by
    intro c hc
    rw [hs1] at hc
    obtain ⟨x, hx, rfl⟩ := List.mem_map.mp hc
    by_cases h : (isAsciiAlnum x || x = '-') = true
    · simp only [if_pos h]
      exact h
    · simp only [if_neg h]
      decide
  have hnoRun2 : noRunB '-' (collapseRuns '-' s1) = true :=
    collapseRuns_noRun _ _
  have hclass2 : ∀ c ∈ collapseRuns '-' s1, gwClass c = true :=
    fun c hc => hclass1 c (collapseRuns_mem hc)
  rcases stripChar_cases '-' (collapseRuns '-' s1) with hnil |
    ⟨c, u, hcu, hcne, hlast, hinf⟩
  · rw [hnil]
    refine ⟨by decide, by decide, by decide, by decide, by decide, by decide⟩
  · rw [hcu]
    have hclassCU : ∀ x ∈ c :: u, gwClass x = true :=
      fun x hx => hclass2 x (hinf.sublist.mem hx)
    have hrunCU : noRunB '-' (c :: u) = true := noRunB_infix hinf hnoRun2
    have halnum : isAsciiAlnum c = true :=
      gwClass_alnum (hclassCU c (by simp)) hcne
    rw [show forceLeadingAlnumGw (c :: u) = c :: u by
      rw [forceLeadingAlnumGw, if_pos halnum]]
    obtain ⟨v, hv, hlen, hlast2, hpre2⟩ :=
      truncateTail_shape '-' 48 (by norm_num) c u hcne hlast
    rw [hv, orDefault, if_neg (by simp)]
    refine ⟨by simp, hlen, ?_, halnum, ?_, ?_⟩
    · intro x hx
      exact hclassCU x (hpre2.sublist.mem hx)
    · rw [getLastD_cons]
      exact hlast2
    · exact noRunB_infix hpre2.isInfix hrunCU

theorem sanitize_gateway_target_name_props (name : List Char) :
    sanitize_gateway_target_name name 100 ≠ [] ∧
    (sanitize_gateway_target_name name 100).length ≤ 100 ∧
    (∀ c ∈ sanitize_gateway_target_name name 100, gwClass c = true) ∧
    isAsciiAlnum ((sanitize_gateway_target_name name 100).headD '-') = true ∧
    (sanitize_gateway_target_name name 100).getLastD '-' ≠ '-' ∧
    noRunB '-' (sanitize_gateway_target_name name 100) = true := by
  rw [sanitize_gateway_target_name]
  set s1 := name.map (fun c => if isAsciiAlnum c || c = '-' then c else '-')
    with hs1
  have hclass1 : ∀ c ∈ s1, gwClass c = true := by
    intro c hc
    rw [hs1] at hc
    obtain ⟨x, hx, rfl⟩ := List.mem_map.mp hc
    by_cases h : (isAsciiAlnum x || x = '-') = true
    · simp only [if_pos h]
      exact h
    · simp only [if_neg h]
      decide
  have hnoRun2 : noRunB '-' (collapseRuns '-' s1) = true :=
    collapseRuns_noRun _ _
  have hclass2 : ∀ c ∈ collapseRuns '-' s1, gwClass c = true :=
    fun c hc => hclass1 c (collapseRuns_mem hc)
  rcases stripChar_cases '-' (collapseRuns '-' s1) with hnil |
    ⟨c, u, hcu, hcne, hlast, hinf⟩
  · rw [hnil]
    refine ⟨by decide, by decide, by decide, by decide, by decide, by decide⟩
  · rw [hcu]
    have hclassCU : ∀ x ∈ c :: u, gwClass x = true :=
      fun x hx => hclass2 x (hinf.sublist.mem hx)
    have hrunCU : noRunB '-' (c :: u) = true := noRunB_infix hinf hnoRun2
    have halnum : isAsciiAlnum c = true :=
      gwClass_alnum (hclassCU c (by simp)) hcne
    obtain ⟨v, hv, hlen, hlast2, hpre2⟩ :=
      truncateTail_shape '-' 100 (by norm_num) c u hcne hlast
    rw [hv, orDefault, if_neg (by simp)]
    refine ⟨by simp, hlen, ?_, halnum, ?_, ?_⟩
    · intro x hx
      exact hclassCU x (hpre2.sublist.mem hx)
    · rw [getLastD_cons]
      exact hlast2
    · exact noRunB_infix hpre2.isInfix hrunCU

theorem sanitize_runtime_name_idem (name : List Char) :
    sanitize_runtime_name (sanitize_runtime_name name 48) 48 =
      sanitize_runtime_name name 48 := by
  obtain ⟨hne, hlen, hclass, hhead, hlast, hrun⟩ :=
    sanitize_runtime_name_props name
  set R := sanitize_runtime_name name 48 with hRdef
  obtain ⟨c, t, hct⟩ : ∃ c t, R = c :: t := by
    cases h : R with
    | nil => exact absurd h hne
    | cons c t => exact ⟨c, t, rfl⟩
  rw [hct] at hclass hrun hlen hhead hlast ⊢
  have hheadc : isAsciiAlpha c = true := hhead
  have hlastc : (c :: t).getLast (by simp) ≠ '_' := by
    rw [getLastD_cons] at hlast
    exact hlast
  rw [sanitize_runtime_name]
  have h1 : (c :: t).map (fun x => if isAsciiAlnum x then x else '_') =
      c :: t := by
    apply map_id_on
    intro x hx
    have hw := hclass x hx
    simp only [wordClass, Bool.or_eq_true, decide_eq_true_eq] at hw
    rcases hw with h | h
    · rw [if_pos h]
    · subst h
      decide
  rw [h1, collapseRuns_eq_self hrun]
  have h3 : stripChar '_' (c :: t) = c :: t := by
    rw [stripChar]
    rw [show (c :: t).dropWhile (fun x => x = '_') = c :: t from by
      rw [List.dropWhile_cons,
        if_neg (by simpa using alpha_ne_underscore hheadc)]]
    rw [List.rdropWhile_eq_self_iff]
    intro hl
    simpa using hlastc
  rw [h3]
  rw [show forceLeadingAlpha "agent_".toList (c :: t) = c :: t from by
    rw [forceLeadingAlpha, if_pos hheadc]]
  rw [show truncateTail '_' 48 (c :: t) = c :: t from by
    rw [truncateTail, if_neg (by omega)]]
  rw [orDefault, if_neg (by simp)]

theorem sanitize_gateway_name_idem (name : List Char) :
    sanitize_gateway_name (sanitize_gateway_name name 48) 48 =
      sanitize_gateway_name name 48 := by
  obtain ⟨hne, hlen, hclass, hhead, hlast, hrun⟩ :=
    sanitize_gateway_name_props name
  set R := sanitize_gateway_name name 48 with hRdef
  obtain ⟨c, t, hct⟩ : ∃ c t, R = c :: t := by
    cases h : R with
    | nil => exact absurd h hne
    | cons c t => exact ⟨c, t, rfl⟩
  rw [hct] at hclass hrun hlen hhead hlast ⊢
  have hheadc : isAsciiAlnum c = true := hhead
  have hlastc : (c :: t).getLast (by simp) ≠ '-' := by
    rw [getLastD_cons] at hlast
    exact hlast
  rw [sanitize_gateway_name]
  have h1 : (c :: t).map (fun x => if isAsciiAlnum x || x = '-' then x
      else '-') = c :: t := by
    apply map_id_on
    intro x hx
    have hw := hclass x hx
    rw [if_pos (by simpa [gwClass] using hw)]
  rw [h1, collapseRuns_eq_self hrun]
  have h3 : stripChar '-' (c :: t) = c :: t := by
    rw [stripChar]
    rw [show (c :: t).dropWhile (fun x => x = '-') = c :: t from by
      rw [List.dropWhile_cons,
        if_neg (by simpa using alnum_ne_hyphen hheadc)]]
    rw [List.rdropWhile_eq_self_iff]
    intro hl
    simpa using hlastc
  rw [h3]
  rw [show forceLeadingAlnumGw (c :: t) = c :: t from by
    rw [forceLeadingAlnumGw, if_pos hheadc]]
  rw [show truncateTail '-' 48 (c :: t) = c :: t from by
    rw [truncateTail, if_neg (by omega)]]
  rw [orDefault, if_neg (by simp)]

theorem sanitize_gateway_target_name_idem (name : List Char) :
    sanitize_gateway_target_name (sanitize_gateway_target_name name 100) 100 =
      sanitize_gateway_target_name name 100 := by
  obtain ⟨hne, hlen, hclass, hhead, hlast, hrun⟩ :=
    sanitize_gateway_target_name_props name
  set R := sanitize_gateway_target_name name 100 with hRdef
  obtain ⟨c, t, hct⟩ : ∃ c t, R = c :: t := by
    cases h : R with
    | nil => exact absurd h hne
    | cons c t => exact ⟨c, t, rfl⟩
  rw [hct] at hclass hrun hlen hhead hlast ⊢
  have hheadc : isAsciiAlnum c = true := hhead
  have hlastc : (c :: t).getLast (by simp) ≠ '-' := by
    rw [getLastD_cons] at hlast
    exact hlast
  rw [sanitize_gateway_target_name]
  have h1 : (c :: t).map (fun x => if isAsciiAlnum x || x = '-' then x
      else '-') = c :: t := by
    apply map_id_on
    intro x hx
    have hw := hclass x hx
    rw [if_pos (by simpa [gwClass] using hw)]
  rw [h1, collapseRuns_eq_self hrun]
  have h3 : stripChar '-' (c :: t) = c :: t := by
    rw [stripChar]
    rw [show (c :: t).dropWhile (fun x => x = '-') = c :: t from by
      rw [List.dropWhile_cons,
        if_neg (by simpa using alnum_ne_hyphen hheadc)]]
    rw [List.rdropWhile_eq_self_iff]
    intro hl
    simpa using hlastc
  rw [h3]
  rw [show truncateTail '-' 100 (c :: t) = c :: t from by
    rw [truncateTail, if_neg (by omega)]]
  rw [orDefault, if_neg (by simp)]

/-! ## 4.6 A2A Connection Service (`src/services/a2a_service.py`,
`src/utils/validation.py::validate_a2a_url`) -/

theorem connLookup_connSet (m : ConnMap) (k : List Char)
    (v : List A2AConnection) : connLookup (connSet m k v) k = some v := by
  induction m with
  | nil => simp [connSet, connLookup]
  | cons p t ih =>
    obtain ⟨k', v'⟩ := p
    rw [connSet]
    split
    · rw [connLookup, if_pos rfl]
    · rename_i hne
      rw [connLookup, if_neg hne]
      exact ih

theorem get_connections_connSet (m : ConnMap) (k : List Char)
    (v : List A2AConnection) : get_connections (connSet m k v) k = v := by
  rw [get_connections, connLookup_connSet]
  rfl

/-- A non-https URL always fails `validate_a2a_url`. -/
theorem validate_a2a_url_scheme {url : List Char}
    (h : urlScheme url ≠ "https".toList) :
    ∃ msg, validate_a2a_url url = some msg := by
  rw [validate_a2a_url]
  by_cases h1 : url = []
  · rw [if_pos h1]
    exact ⟨_, rfl⟩
  · rw [if_neg h1]
    by_cases h2 : pyStrip url = []
    · rw [if_pos h2]
      exact ⟨_, rfl⟩
    · rw [if_neg h2, if_pos h]
      exact ⟨_, rfl⟩

/-- Successful `add_connection` calls are exactly the upserts: inversion
principle used by the stored-state theorems. -/
theorem add_connection_ok {registry : AgentRegistry} {m : ConnMap}
    {src tgt url : List Char} {c : A2AConnection} {m' : ConnMap}
    (h : add_connection registry m src tgt url = (Except.ok c, m')) :
    ∃ rec, registry tgt = some rec ∧
      c = ⟨src, tgt, url, rec.agent_name⟩ ∧
      m' = connSet m src
        ((get_connections m src).filter
          (fun x => !(x.target_agent_id = tgt)) ++ [c]) := by
  rw [add_connection] at h
  split at h
  · simp at h
  · rename_i hval
    split at h
    · simp at h
    · rename_i rec hrec
      simp only [] at h
      split at h
      · simp at h
      · rename_i hpost
        split at h
        · simp at h
        · rename_i henv
          simp only [Prod.mk.injEq, Except.ok.injEq] at h
          obtain ⟨hc, hm⟩ := h
          exact ⟨rec, hrec, hc.symm, by rw [← hm, ← hc]⟩

theorem filter_not_filter {α : Type} (p : α → Bool) (l : List α) :
    (l.filter (fun a => !(p a))).filter p = [] := by
  induction l with
  | nil => rfl
  | cons a t ih =>
    by_cases h : p a = true
    · simp [List.filter_cons, h, ih]
    · simp only [Bool.not_eq_true] at h
      simp [List.filter_cons, h, ih]

theorem filter_idem {α : Type} (q : α → Bool) (l : List α) :
    (l.filter q).filter q = l.filter q := by
  induction l with
  | nil => rfl
  | cons a t ih =>
    by_cases h : q a = true
    · simp [List.filter_cons, h, ih]
    · simp only [Bool.not_eq_true] at h
      simp [List.filter_cons, h, ih]

/-- Double-add inversion used by the C5 claim. -/
theorem add_connection_twice {registry : AgentRegistry} {m : ConnMap}
    {src tgt url1 url2 : List Char} {c1 c2 : A2AConnection} {m1 m2 : ConnMap}
    (h1 : add_connection registry m src tgt url1 = (Except.ok c1, m1))
    (h2 : add_connection registry m1 src tgt url2 = (Except.ok c2, m2)) :
    (get_connections m2 src).filter
      (fun x => x.target_agent_id = tgt) = [c2] ∧
    c2.target_a2a_url = url2 ∧
    (get_connections m2 src).filter (fun x => !(x.target_agent_id = tgt)) =
      (get_connections m src).filter
        (fun x => !(x.target_agent_id = tgt)) := by
  obtain ⟨r1, hr1, hc1, hm1⟩ := add_connection_ok h1
  obtain ⟨r2, hr2, hc2, hm2⟩ := add_connection_ok h2
  have hct1 : (decide (c1.target_agent_id = tgt)) = true := by
    rw [hc1]
    simp
  have hct2 : (decide (c2.target_agent_id = tgt)) = true := by
    rw [hc2]
    simp
  have hg1 : get_connections m1 src =
      (get_connections m src).filter
        (fun x => !(x.target_agent_id = tgt)) ++ [c1] := by
    rw [hm1, get_connections_connSet]
  have hg2 : get_connections m2 src =
      (get_connections m1 src).filter
        (fun x => !(x.target_agent_id = tgt)) ++ [c2] := by
    rw [hm2, get_connections_connSet]
  have hinner : (get_connections m1 src).filter
      (fun x => !(x.target_agent_id = tgt)) =
      (get_connections m src).filter
        (fun x => !(x.target_agent_id = tgt)) := by
    rw [hg1, List.filter_append, filter_idem]
    simp [List.filter_cons, hct1]
  refine ⟨?_, by rw [hc2], ?_⟩
  · rw [hg2, List.filter_append, filter_not_filter]
    simp [List.filter_cons, hct2]
  · rw [hg2, hinner, List.filter_append, filter_idem]
    simp [List.filter_cons, hct2]

/-- State mutation on the missing-source error path (C10 support): the
connection is stored and then the environment update raises. -/
theorem add_connection_missing_source {registry : AgentRegistry}
    {m : ConnMap} {src tgt url : List Char} {rec : AgentRecord}
    (hval : validate_a2a_url url = none)
    (htgt : registry tgt = some rec)
    (hsrc : registry src = none)
    (hpost : a2aConnectionValidate ⟨src, tgt, url, rec.agent_name⟩ = none) :
    add_connection registry m src tgt url =
      (Except.error (A2AErr.connection
        ("Agent not found in registry: ".toList ++ src)),
       connSet m src ((get_connections m src).filter
         (fun x => !(x.target_agent_id = tgt)) ++
         [⟨src, tgt, url, rec.agent_name⟩])) ∧
    ⟨src, tgt, url, rec.agent_name⟩ ∈
      get_connections (add_connection registry m src tgt url).2 src := by
  have hupd : update_agent_environment registry
      (connSet m src ((get_connections m src).filter
        (fun x => !(x.target_agent_id = tgt)) ++
        [⟨src, tgt, url, rec.agent_name⟩])) src =
      some (.connection ("Agent not found in registry: ".toList ++ src)) := by
    rw [update_agent_environment, get_connections_connSet,
      if_neg (by simp), hsrc]
  have hmain : add_connection registry m src tgt url =
      (Except.error (A2AErr.connection
        ("Agent not found in registry: ".toList ++ src)),
       connSet m src ((get_connections m src).filter
         (fun x => !(x.target_agent_id = tgt)) ++
         [⟨src, tgt, url, rec.agent_name⟩])) := by
    rw [add_connection, hval]
    simp only []
    rw [htgt]
    simp only []
    rw [hpost]
    simp only []
    rw [hupd]
  refine ⟨hmain, ?_⟩
  rw [hmain]
  simp only []
  rw [get_connections_connSet]
  exact List.mem_append_right _ (by simp)

theorem add_connection_bad_scheme {registry : AgentRegistry} {m : ConnMap}
    {src tgt url : List Char} (h : urlScheme url ≠ "https".toList) :
    ∃ msg, add_connection registry m src tgt url =
      (Except.error (A2AErr.validation msg), m) := by
  obtain ⟨msg, hmsg⟩ := validate_a2a_url_scheme h
  exact ⟨_, by rw [add_connection, hmsg]⟩

/-! ## 4.4 Gateway Lifecycle Manager
(`src/builder_agent/tools/create_gateway.py`) -/

theorem create_gateway_first {role : Option (List Char)}
    {cp : List Char → List Char → Option GatewayResponse}
    {name desc : List Char} {resp : GatewayResponse}
    (hrole : role.isSome = true)
    (hcp : cp (sanitize_gateway_name name 48) desc = some resp) :
    create_gateway role cp initialGatewayTracker name desc =
      (.created name resp.gatewayId (resp.gatewayUrl.getD "N/A".toList),
       ⟨true, some resp.gatewayId, some name⟩, 1) := by
  obtain ⟨r, hr⟩ := Option.isSome_iff_exists.mp hrole
  rw [create_gateway.eq_def, if_neg (by simp [initialGatewayTracker]), hr]
  simp only []
  rw [hcp]

theorem create_gateway_blocked {role : Option (List Char)}
    {cp : List Char → List Char → Option GatewayResponse}
    {name desc : List Char} {gid gname : List Char}
    : create_gateway role cp ⟨true, some gid, some gname⟩ name desc =
      (.duplicateBlocked (some gname) (some gid),
       ⟨true, some gid, some gname⟩, 0) := by
  rw [create_gateway.eq_def, if_pos rfl]

/-! ## 4.3 Tool Packaging & Registration
(`src/builder_agent/tools/create_lambda_tools.py`,
`src/utils/validation.py::validate_tool_schema`) -/

/-- Batch isolation (C8 support): with exactly the middle spec failing,
the loop reports the other two as successes and the failure with its
per-tool error detail. -/
theorem create_lambda_tools_partial {env : ToolsEnv} {role gid : List Char}
    {t1 t2 t3 : ToolDef} {e1 e3 : List Char × List Char × List Char}
    {msg : List Char}
    (h1 : processTool env gid t1 = .ok e1)
    (h2 : processTool env gid t2 = .error msg)
    (h3 : processTool env gid t3 = .ok e3) :
    create_lambda_tools (some role) env gid [t1, t2, t3] =
      .partialFailure [e1, e3] [(toolDefName t2, msg)] := by
  rw [create_lambda_tools.eq_def]
  simp only [createToolsLoop, h1, h2, h3]
  rw [if_neg (by simp), if_pos (by simp)]

/-- C9 support: a `ResourceConflictException` from the permission grant
is swallowed and the tool still counts as created. -/
theorem permission_conflict_is_success {env : ToolsEnv}
    {role gid nm desc hc : List Char} {schema : ToolSchema}
    {fn : LambdaFnResult}
    (hcf : env.createToolFunction ⟨nm, desc, schema, hc⟩ = .ok fn)
    (hgt : env.createGatewayTarget gid
      (sanitize_gateway_target_name nm 100) = .ok ())
    (hperm : env.addPermission fn.function_name = .conflict) :
    processTool env gid ⟨some nm, some desc, some schema, some hc⟩ =
      .ok (nm, fn.function_arn, desc) ∧
    create_lambda_tools (some role) env gid
      [⟨some nm, some desc, some schema, some hc⟩] =
      .success [(nm, fn.function_arn, desc)] := by
  have hp : processTool env gid ⟨some nm, some desc, some schema, some hc⟩ =
      .ok (nm, fn.function_arn, desc) := by
    rw [processTool.eq_def]
    simp only []
    rw [hcf]
    simp only []
    rw [hgt]
    simp only []
    rw [hperm]
  refine ⟨hp, ?_⟩
  rw [create_lambda_tools.eq_def]
  simp only [createToolsLoop, hp]
  rw [if_pos (by simp)]

/-! ## 4.2 Dynamic Code Synthesizer
(`src/services/lambda_service.py::LambdaService._generate_lambda_code`) -/

theorem splitLines_ne_nil (s : List Char) : splitLines s ≠ [] := by
  induction s with
  | nil => simp [splitLines]
  | cons c t ih =>
    rw [splitLines]
    split
    · simp
    · cases hr : splitLines t with
      | nil => simp
      | cons l0 ls => simp

theorem splitLines_no_newline (s : List Char) :
    ∀ l ∈ splitLines s, '\n' ∉ l := by
  induction s with
  | nil =>
    intro l hl
    simp only [splitLines, List.mem_singleton] at hl
    simp [hl]
  | cons c t ih =>
    intro l hl
    rw [splitLines] at hl
    by_cases hc : c = '\n'
    · rw [if_pos hc] at hl
      rcases List.mem_cons.mp hl with rfl | hl
      · simp
      · exact ih l hl
    · rw [if_neg hc] at hl
      cases hr : splitLines t with
      | nil => exact absurd hr (splitLines_ne_nil t)
      | cons l0 ls =>
        rw [hr] at hl
        rcases List.mem_cons.mp hl with rfl | hl
        · intro hmem
          rcases List.mem_cons.mp hmem with rfl | hmem
          · exact hc rfl
          · exact ih l0 (by rw [hr]; simp) hmem
        · exact ih l (by rw [hr]; simp [hl])

theorem splitLines_single {l : List Char} (h : '\n' ∉ l) :
    splitLines l = [l] := by
  induction l with
  | nil => rfl
  | cons c t ih =>
    rw [splitLines]
    rw [if_neg (by intro hc; exact h (by simp [hc]))]
    rw [ih (by intro hm; exact h (by simp [hm]))]

theorem splitLines_append_newline {l r : List Char} (h : '\n' ∉ l) :
    splitLines (l ++ '\n' :: r) = l :: splitLines r := by
  induction l with
  | nil =>
    rw [List.nil_append, splitLines]
    simp
  | cons c t ih =>
    rw [List.cons_append, splitLines]
    rw [if_neg (by intro hc; exact h (by simp [hc]))]
    rw [ih (by intro hm; exact h (by simp [hm]))]

theorem splitLines_joinLines {ls : List (List Char)}
    (h : ∀ l ∈ ls, '\n' ∉ l) (hne : ls ≠ []) :
    splitLines (joinLines ls) = ls := by
  induction ls with
  | nil => exact absurd rfl hne
  | cons l ls' ih =>
    cases ls' with
    | nil =>
      rw [joinLines]
      exact splitLines_single (h l (by simp))
    | cons l2 ls'' =>
      rw [show joinLines (l :: l2 :: ls'') =
        l ++ '\n' :: joinLines (l2 :: ls'') from rfl]
      rw [splitLines_append_newline (h l (by simp))]
      have hrec := ih (fun x hx => h x (by simp [hx]))
        (List.cons_ne_nil l2 ls'')
      rw [hrec]

theorem mem_splitLines_lstrip {s l : List Char}
    (h : l ∈ splitLines (lstripChar '\n' s)) : l ∈ splitLines s := by
  induction s with
  | nil => exact h
  | cons c t ih =>
    by_cases hc : c = '\n'
    · subst hc
      have hls : lstripChar '\n' ('\n' :: t) = lstripChar '\n' t := by
        rw [lstripChar, List.dropWhile_cons, if_pos (by simp)]
        rfl
      rw [hls] at h
      rw [splitLines]
      simp only [if_pos rfl]
      exact List.mem_cons_of_mem _ (ih h)
    · have hls : lstripChar '\n' (c :: t) = c :: t := by
        rw [lstripChar, List.dropWhile_cons, if_neg (by simpa using hc)]
      rw [hls] at h
      exact h

/-- Every line of the import-stripped body is either empty or an original
line of the fragment on which both import-statement patterns fail: the
handled import forms never survive. -/
theorem stripImports_lines (code : List Char) :
    ∀ l ∈ splitLines (stripImports code),
      l = [] ∨ (l ∈ splitLines code ∧ plainImportLine l = false ∧
        fromImportLine l = false) := by
  intro l hl
  rw [stripImports] at hl
  set ls1 := (splitLines code).map
    (fun l => if plainImportLine l then [] else l) with hls1
  set ls2 := ls1.map (fun l => if fromImportLine l then [] else l) with hls2
  set ls3 := ls2.filter (fun l => !(pyStrip l).isEmpty || l.isEmpty)
    with hls3
  have hnn3 : ∀ x ∈ ls3, '\n' ∉ x := by
    intro x hx
    have hx2 := List.mem_of_mem_filter hx
    rw [hls2] at hx2
    obtain ⟨y, hy, hyx⟩ := List.mem_map.mp hx2
    rw [hls1] at hy
    obtain ⟨z, hz, hzy⟩ := List.mem_map.mp hy
    have hz' := splitLines_no_newline code z hz
    subst hyx
    subst hzy
    split
    · simp
    · split
      · simp
      · exact hz'
  rcases List.eq_nil_or_concat ls3 with h3 | h3
  · rw [h3] at hl
    left
    simpa [joinLines, lstripChar, splitLines] using hl
  have hl3 : l ∈ ls3 := by
    have := mem_splitLines_lstrip hl
    rwa [splitLines_joinLines hnn3 (by
      rcases h3 with ⟨a, b, hab⟩
      rw [hab]
      simp)] at this
  have hl2 : l ∈ ls2 := List.mem_of_mem_filter hl3
  rw [hls2] at hl2
  obtain ⟨y, hy, hyl⟩ := List.mem_map.mp hl2
  rw [hls1] at hy
  obtain ⟨z, hz, hzy⟩ := List.mem_map.mp hy
  by_cases hp : plainImportLine z = true
  · rw [if_pos hp] at hzy
    subst hzy
    rw [if_neg (by rw [fromImportLine]; simp)] at hyl
    exact Or.inl hyl.symm
  · rw [if_neg hp] at hzy
    subst hzy
    by_cases hf : fromImportLine z = true
    · rw [if_pos hf] at hyl
      exact Or.inl hyl.symm
    · rw [if_neg hf] at hyl
      subst hyl
      exact Or.inr ⟨hz, by simpa using hp, by simpa using hf⟩

theorem stripPre_append (f r : List Char) : stripPre f (f ++ r) = some r := by
  induction f with
  | nil => rfl
  | cons a f' ih =>
    rw [List.cons_append, stripPre, if_pos rfl]
    exact ih

theorem stripPre_some {f s r : List Char} (h : stripPre f s = some r) :
    s = f ++ r := by
  induction f generalizing s with
  | nil =>
    rw [stripPre] at h
    simp at h
    simp [h]
  | cons a f' ih =>
    cases s with
    | nil => exact absurd h (by rw [stripPre]; simp)
    | cons b s' =>
      rw [stripPre] at h
      by_cases hab : a = b
      · rw [if_pos hab] at h
        rw [List.cons_append, ← ih h, hab]
      · rw [if_neg hab] at h
        exact absurd h (by simp)

theorem stripPre_ext {f y : List Char} (hlen : f.length ≤ y.length)
    (h : stripPre f y = none) (b : List Char) :
    stripPre f (y ++ b) = none := by
  induction f generalizing y with
  | nil => exact absurd h (by rw [stripPre]; simp)
  | cons a f' ih =>
    cases y with
    | nil => simp at hlen
    | cons c y' =>
      rw [List.cons_append]
      rw [stripPre] at h ⊢
      by_cases hac : a = c
      · rw [if_pos hac] at h ⊢
        exact ih (by simpa using hlen) h
      · rw [if_neg hac]

theorem dropWs_cons_neg {c : Char} (h : isWsChar c = false)
    (r : List Char) : dropWs (c :: r) = c :: r := by
  rw [dropWs, List.dropWhile_cons, if_neg (by simp [h])]

theorem matchField_nil (f : List Char) : matchField f [] = none := by
  rw [matchField]

theorem matchField_nonquote {f : List Char} {c : Char} {s : List Char}
    (h : quoteCharB c = false) : matchField f (c :: s) = none := by
  rw [matchField]
  simp [h]

theorem matchField_nostrip {f : List Char} {q : Char} {s : List Char}
    (h : stripPre f s = none) : matchField f (q :: s) = none := by
  rw [matchField]
  by_cases hq : quoteCharB q = true
  · rw [if_pos hq, h]
  · rw [if_neg hq]

theorem matchField_head_mismatch {g : List Char} {q c : Char}
    {y : List Char} (hg : fieldOkB g = true) (hc : isLowerAlpha c = false) :
    matchField g (q :: c :: y) = none := by
  apply matchField_nostrip
  cases g with
  | nil => exact absurd hg (by rw [fieldOkB]; simp)
  | cons a g' =>
    rw [stripPre]
    rw [if_neg ?_]
    intro hac
    subst hac
    rw [fieldOkB] at hg
    simp only [Bool.and_eq_true, List.all_cons] at hg
    rw [hg.2.1] at hc
    cases hc

theorem prefix_total {g f r : List Char} (h : g <+: f ++ r) :
    g <+: f ∨ f <+: g := by
  rcases Nat.le_total g.length f.length with hle | hle
  · left
    have hg : g = (f ++ r).take g.length := List.prefix_iff_eq_take.mp h
    rw [List.take_append_eq_append_take, Nat.sub_eq_zero_of_le hle] at hg
    simp only [List.take_zero, List.append_nil] at hg
    rw [hg]
    exact List.take_prefix _ _
  · right
    have hg : g = (f ++ r).take g.length := List.prefix_iff_eq_take.mp h
    have hf : f = g.take f.length := by
      rw [hg, List.take_take, Nat.min_eq_left hle,
        List.take_append_eq_append_take, Nat.sub_self]
      simp
    rw [hf]
    exact List.take_prefix _ _

theorem matchField_other {g f : List Char} {q : Char} {r : List Char}
    (h1 : ¬ g <+: f) (h2 : ¬ f <+: g) :
    matchField g (q :: (f ++ r)) = none := by
  apply matchField_nostrip
  cases hsp : stripPre g (f ++ r) with
  | none => rfl
  | some r' =>
    exfalso
    have heq := stripPre_some hsp
    have hgpre : g <+: f ++ r := ⟨r', heq.symm⟩
    have hfpre : f <+: f ++ r := ⟨r, rfl⟩
    rcases prefix_total hgpre with h | h
    · exact h1 h
    · exact h2 h

theorem length_dropWs_le (s : List Char) : (dropWs s).length ≤ s.length := by
  rw [dropWs]
  induction s with
  | nil => simp
  | cons c t ih =>
    rw [List.dropWhile_cons]
    split
    · exact Nat.le_succ_of_le ih
    · simp

theorem matchField_rest_length {f s : List Char} {m : FieldMatch}
    (h : matchField f s = some m) : m.rest.length < s.length := by
  cases s with
  | nil => exact absurd h (by rw [matchField]; simp)
  | cons q1 s1 =>
    rw [matchField] at h
    by_cases hq : quoteCharB q1 = true
    case neg =>
      rw [if_neg hq] at h
      exact absurd h (by simp)
    rw [if_pos hq] at h
    cases hsp : stripPre f s1 with
    | none =>
      rw [hsp] at h
      simp at h
    | some s2 =>
    rw [hsp] at h
    have hlen2 : s2.length ≤ s1.length := by
      rw [stripPre_some hsp]
      simp
    cases s2 with
    | nil => simp at h
    | cons q1x s3 =>
    simp only [] at h
    by_cases hqx : q1x = q1
    case neg =>
      rw [if_neg hqx] at h
      exact absurd h (by simp)
    rw [if_pos hqx] at h
    have hlen3 : s3.length < s1.length := by
      simp only [List.length_cons] at hlen2
      omega
    cases hdw : dropWs s3 with
    | nil =>
      rw [hdw] at h
      simp at h
    | cons c4 s5 =>
    rw [hdw] at h
    simp only [] at h
    have hlen5 : s5.length < s3.length + 1 := by
      have h1 := length_dropWs_le s3
      rw [hdw] at h1
      simp only [List.length_cons] at h1
      omega
    by_cases hc4 : c4 = ':'
    case neg =>
      rw [if_neg hc4] at h
      exact absurd h (by simp)
    rw [if_pos hc4] at h
    cases hsp2 : stripPre "parameters.get(".toList (dropWs s5) with
    | none =>
      rw [hsp2] at h
      simp at h
    | some s7 =>
    rw [hsp2] at h
    have hlen7 : s7.length ≤ s5.length := by
      have h3 := stripPre_some hsp2
      have h2 := length_dropWs_le s5
      rw [h3] at h2
      simp only [List.length_append] at h2
      omega
    cases s7 with
    | nil => simp at h
    | cons q2 s8 =>
    simp only [] at h
    by_cases hq2 : quoteCharB q2 = true
    case neg =>
      rw [if_neg hq2] at h
      exact absurd h (by simp)
    rw [if_pos hq2] at h
    cases hsp3 : stripPre f s8 with
    | none =>
      rw [hsp3] at h
      simp at h
    | some s9 =>
    rw [hsp3] at h
    have hlen9 : s9.length ≤ s8.length := by
      rw [stripPre_some hsp3]
      simp
    cases s9 with
    | nil => simp at h
    | cons q2x s10 =>
    simp only [] at h
    by_cases hq2x : q2x = q2
    case neg =>
      rw [if_neg hq2x] at h
      exact absurd h (by simp)
    rw [if_pos hq2x] at h
    have hlen10 : s10.length < s8.length := by
      simp only [List.length_cons] at hlen9
      omega
    cases s10 with
    | nil => simp at h
    | cons c10 s11 =>
    simp only [] at h
    simp only [List.length_cons] at hlen10
    by_cases hc10 : c10 = ')'
    · rw [if_pos hc10] at h
      injection h with h
      subst h
      simp only [List.length_cons] at *
      omega
    rw [if_neg hc10] at h
    by_cases hc10b : c10 = ','
    case neg =>
      rw [if_neg hc10b] at h
      exact absurd h (by simp)
    rw [if_pos hc10b] at h
    by_cases hmid : (s11.takeWhile (fun c => !(c = ')'))).isEmpty = true
    · rw [if_pos hmid] at h
      exact absurd h (by simp)
    rw [if_neg hmid] at h
    cases hdr : s11.drop (s11.takeWhile (fun c => !(c = ')'))).length with
    | nil =>
      rw [hdr] at h
      simp at h
    | cons c12 s12 =>
    rw [hdr] at h
    simp only [] at h
    by_cases hc12 : c12 = ')'
    case neg =>
      rw [if_neg hc12] at h
      exact absurd h (by simp)
    rw [if_pos hc12] at h
    injection h with h
    subst h
    have hd : s12.length < s11.length + 1 := by
      have h5 := congrArg List.length hdr
      simp only [List.length_drop, List.length_cons] at h5
      omega
    simp only [List.length_cons] at *
    omega

theorem subAllF_fuel (field : List Char) :
    ∀ (n : Nat) (s : List Char), s.length ≤ n →
      subAllF field n s = subAll field s := by
  intro n
  induction n using Nat.strong_induction_on with
  | _ n ih =>
    intro s hs
    cases n with
    | zero =>
      cases s with
      | nil => rfl
      | cons c t => simp at hs
    | succ n =>
      cases s with
      | nil =>
        rw [subAllF, matchField_nil]
        rfl
      | cons c t =>
        rw [subAllF]
        rw [show subAll field (c :: t)
              = subAllF field (t.length + 1) (c :: t) from rfl]
        rw [subAllF]
        cases hm : matchField field (c :: t) with
        | some m =>
          simp only []
          have hr := matchField_rest_length hm
          simp only [List.length_cons] at hr hs
          rw [ih n (by omega) m.rest (by omega)]
          rw [ih t.length (by omega) m.rest (by omega)]
        | none =>
          simp only []
          simp only [List.length_cons] at hs
          rw [ih n (by omega) t (by omega)]
          rw [ih t.length (by omega) t (le_refl _)]

theorem subAll_nil (field : List Char) : subAll field [] = [] := rfl

theorem subAll_match {field s : List Char} {m : FieldMatch}
    (h : matchField field s = some m) :
    subAll field s = replField field m ++ subAll field m.rest := by
  cases s with
  | nil =>
    rw [matchField_nil] at h
    exact absurd h (by simp)
  | cons c t =>
    have hr := matchField_rest_length h
    simp only [List.length_cons] at hr
    rw [show subAll field (c :: t)
          = subAllF field (t.length + 1) (c :: t) from rfl]
    rw [subAllF, h]
    simp only []
    rw [subAllF_fuel field t.length m.rest (by omega)]

theorem subAll_nomatch {field : List Char} {c : Char} {t : List Char}
    (h : matchField field (c :: t) = none) :
    subAll field (c :: t) = c :: subAll field t := by
  rw [show subAll field (c :: t)
        = subAllF field (t.length + 1) (c :: t) from rfl]
  rw [subAllF, h]
  simp only []
  rw [subAllF_fuel field t.length t (le_refl _)]

theorem NoM_nil (f : List Char) : NoM f [] := by
  intro y hy
  rw [List.suffix_nil.mp hy]
  exact matchField_nil f

theorem NoM_cons {f : List Char} {c : Char} {r : List Char}
    (h1 : matchField f (c :: r) = none) (h2 : NoM f r) : NoM f (c :: r) := by
  intro y hy
  rcases List.suffix_cons_iff.mp hy with rfl | hy
  · exact h1
  · exact h2 y hy

theorem NoM_tail {f : List Char} {c : Char} {r : List Char}
    (h : NoM f (c :: r)) : NoM f r := by
  intro y hy
  exact h y (hy.trans (List.suffix_cons c r))

theorem subAll_eq_of_NoM {f s : List Char} (h : NoM f s) :
    subAll f s = s := by
  induction s with
  | nil => rfl
  | cons c t ih =>
    rw [subAll_nomatch (h (c :: t) (List.suffix_refl _))]
    rw [ih (NoM_tail h)]

theorem NoM_chunk_append {g a b : List Char}
    (ha : ∀ c ∈ a, quoteCharB c = false) (hb : NoM g b) : NoM g (a ++ b) := by
  induction a with
  | nil => simpa using hb
  | cons c a' ih =>
    rw [List.cons_append]
    refine NoM_cons (matchField_nonquote (ha c (by simp))) ?_
    exact ih (fun x hx => ha x (by simp [hx]))

theorem stripPreMismB_ext {f y : List Char} (h : stripPreMismB f y = true)
    (b : List Char) : stripPre f (y ++ b) = none := by
  induction f generalizing y with
  | nil => exact absurd h (by rw [stripPreMismB]; simp)
  | cons a f2 ih =>
    cases y with
    | nil => exact absurd h (by rw [stripPreMismB]; simp)
    | cons c y2 =>
      rw [stripPreMismB] at h
      rw [List.cons_append, stripPre]
      by_cases hac : a = c
      · rw [if_pos hac] at h ⊢
        exact ih h
      · rw [if_neg hac]

theorem suffixSafeB_sound {g a : List Char} (hs : suffixSafeB g a = true)
    {b : List Char} (hb : NoM g b) : NoM g (a ++ b) := by
  induction a with
  | nil => simpa using hb
  | cons c a2 ih =>
    rw [List.cons_append]
    rw [suffixSafeB] at hs
    simp only [Bool.and_eq_true] at hs
    refine NoM_cons ?_ (ih hs.2)
    rcases Bool.or_eq_true_iff.mp hs.1 with h | h
    · exact matchField_nonquote (by simpa using h)
    · exact matchField_nostrip (stripPreMismB_ext h b)

theorem dropWs_cons_pos {c : Char} (h : isWsChar c = true) (r : List Char) :
    dropWs (c :: r) = dropWs r := by
  rw [dropWs, List.dropWhile_cons, if_pos (by simp [h])]
  rfl

theorem dropWs_params (z : List Char) :
    dropWs ("parameters.get(".toList ++ z) = "parameters.get(".toList ++ z := by
  rw [show "parameters.get(".toList ++ z
        = 'p' :: ("arameters.get(".toList ++ z) from rfl]
  exact dropWs_cons_neg (by decide) _

theorem seg_colon (z : List Char) :
    ": parameters.get(".toList ++ z
      = ':' :: (' ' :: ("parameters.get(".toList ++ z)) := rfl

theorem takeWhile_append_stop {p : Char → Bool} {a : List Char}
    (ha : ∀ c ∈ a, p c = true) {c : Char} (hc : p c = false) (r : List Char) :
    (a ++ c :: r).takeWhile p = a := by
  induction a with
  | nil =>
    rw [List.nil_append, List.takeWhile_cons, if_neg (by simp [hc])]
  | cons x a2 ih =>
    rw [List.cons_append, List.takeWhile_cons, if_pos (ha x (by simp))]
    rw [ih (fun y hy => ha y (by simp [hy]))]

theorem dfltOkB_inv {dflt : List Char} (hd : dfltOkB dflt = true) :
    dflt = [] ∨ ∃ ds, dflt = ',' :: ds ∧ ds ≠ [] ∧
      ∀ c ∈ ds, c ≠ ')' ∧ quoteCharB c = false ∧ c ≠ '\n' := by
  cases dflt with
  | nil => exact Or.inl rfl
  | cons c ds =>
    rw [dfltOkB] at hd
    simp only [Bool.and_eq_true, decide_eq_true_eq, List.all_eq_true,
      Bool.not_eq_true] at hd
    obtain ⟨⟨hc, hne⟩, hall⟩ := hd
    subst hc
    refine Or.inr ⟨ds, rfl, ?_, ?_⟩
    · intro hds
      rw [hds] at hne
      simp at hne
    · intro x hx
      have hx2 := hall x hx
      simp only [Bool.and_eq_true, Bool.not_eq_true',
        decide_eq_false_iff_not] at hx2
      exact ⟨hx2.1.1, hx2.1.2, hx2.2⟩

theorem matchField_rawAssign {f : List Char}
    {q1 q2 : Char} (hq1 : quoteCharB q1 = true) (hq2 : quoteCharB q2 = true)
    {dflt : List Char} (hd : dfltOkB dflt = true) (rest : List Char) :
    matchField f (rawAssign f q1 q2 dflt ++ rest) =
      some ⟨q1, q2, dflt, rest⟩ := by
  rw [rawAssign]
  simp only [List.cons_append, List.append_assoc, List.singleton_append,
    List.nil_append]
  rw [matchField]
  simp only []
  rw [if_pos hq1]
  rw [stripPre_append]
  simp only []
  rw [if_pos trivial]
  rw [seg_colon]
  rw [dropWs_cons_neg (show isWsChar ':' = false by decide)]
  simp only []
  rw [if_pos trivial]
  rw [dropWs_cons_pos (show isWsChar ' ' = true by decide)]
  rw [dropWs_params]
  rw [stripPre_append]
  simp only []
  rw [if_pos hq2]
  rw [stripPre_append]
  simp only []
  rw [if_pos trivial]
  rcases dfltOkB_inv hd with rfl | ⟨ds, rfl, hne, hall⟩
  · simp only [List.nil_append]
    rw [if_pos trivial]
  · simp only [List.cons_append]
    rw [if_neg (show ¬ (',' = ')') by decide)]
    rw [if_pos trivial]
    have hmid : (ds ++ ')' :: rest).takeWhile (fun c => !(c = ')')) = ds :=
      takeWhile_append_stop
        (fun y hy => by simp [(hall y hy).1]) (by simp) rest
    rw [hmid]
    rw [if_neg (show ¬ (ds.isEmpty = true) by
      cases ds with
      | nil => exact absurd rfl hne
      | cons x xs => simp)]
    rw [List.drop_left]
    simp only []
    rw [if_pos trivial]

theorem lower_nonquote {c : Char} (h : isLowerAlpha c = true) :
    quoteCharB c = false := by
  by_cases h1 : c = '\''
  · subst h1
    exact absurd h (by decide)
  by_cases h2 : c = '"'
  · subst h2
    exact absurd h (by decide)
  rw [quoteCharB]
  simp [h1, h2]

theorem fieldOkB_nonquote {f : List Char} (h : fieldOkB f = true) :
    ∀ c ∈ f, quoteCharB c = false := by
  rw [fieldOkB] at h
  simp only [Bool.and_eq_true, List.all_eq_true] at h
  intro c hc
  exact lower_nonquote (h.2 c hc)

theorem NoM_of_nonquote {g s : List Char}
    (hs : ∀ c ∈ s, quoteCharB c = false) : NoM g s := by
  have h2 := NoM_chunk_append hs (NoM_nil g)
  rwa [List.append_nil] at h2

theorem NoM_of_suffixSafe {g a : List Char} (h : suffixSafeB g a = true) :
    NoM g a := by
  have h2 := suffixSafeB_sound h (NoM_nil g)
  rwa [List.append_nil] at h2

theorem subAll_chunk_append {f pre : List Char}
    (hp : ∀ c ∈ pre, quoteCharB c = false) (s : List Char) :
    subAll f (pre ++ s) = pre ++ subAll f s := by
  induction pre with
  | nil => simp
  | cons c p ih =>
    rw [List.cons_append,
      subAll_nomatch (matchField_nonquote (hp c (by simp)))]
    rw [ih (fun x hx => hp x (by simp [hx])), List.cons_append]

theorem matchField_self_decimal {f : List Char} {q : Char}
    (hq : quoteCharB q = true) (R : List Char) :
    matchField f
      (q :: (f ++ q :: (": Decimal(str(parameters.get(".toList ++ R)))
      = none := by
  rw [matchField]
  simp only []
  rw [if_pos hq]
  rw [stripPre_append]
  simp only []
  rw [if_pos trivial]
  rw [show ": Decimal(str(parameters.get(".toList ++ R
        = ':' :: (' ' :: ("Decimal(str(parameters.get(".toList ++ R))
        from rfl]
  rw [dropWs_cons_neg (show isWsChar ':' = false by decide)]
  simp only []
  rw [if_pos trivial]
  rw [dropWs_cons_pos (show isWsChar ' ' = true by decide)]
  rw [show "Decimal(str(parameters.get(".toList ++ R
        = 'D' :: ("ecimal(str(parameters.get(".toList ++ R) from rfl]
  rw [dropWs_cons_neg (show isWsChar 'D' = false by decide)]
  rw [show "parameters.get(".toList
        = 'p' :: "arameters.get(".toList from rfl]
  rw [stripPre]
  rw [if_neg (show ¬ ('p' = 'D') by decide)]

theorem matchField_self_noColon {f : List Char} {q : Char}
    (hq : quoteCharB q = true) {dflt : List Char} (hd : dfltOkB dflt = true)
    (w : List Char) :
    matchField f (q :: (f ++ q :: (dflt ++ ')' :: w))) = none := by
  rw [matchField]
  simp only []
  rw [if_pos hq]
  rw [stripPre_append]
  simp only []
  rw [if_pos trivial]
  rcases dfltOkB_inv hd with rfl | ⟨ds, rfl, hne, hall⟩
  · simp only [List.nil_append]
    rw [dropWs_cons_neg (show isWsChar ')' = false by decide)]
    simp only []
    rw [if_neg (show ¬ (')' = ':') by decide)]
  · simp only [List.cons_append]
    rw [dropWs_cons_neg (show isWsChar ',' = false by decide)]
    simp only []
    rw [if_neg (show ¬ (',' = ':') by decide)]

theorem NoM_replAssign {g f : List Char} (hg : fieldOkB g = true)
    {q1 q2 : Char} (hq1 : quoteCharB q1 = true) (hq2 : quoteCharB q2 = true)
    {dflt : List Char} (hd : dfltOkB dflt = true)
    (hfq : ∀ c ∈ f, quoteCharB c = false)
    (hgf : g = f ∨ (¬ g <+: f ∧ ¬ f <+: g))
    {z : List Char} (hz : NoM g z) :
    NoM g (replAssign f q1 q2 dflt ++ z) := by
  have hdq : ∀ c ∈ dflt, quoteCharB c = false := by
    rcases dfltOkB_inv hd with rfl | ⟨ds, rfl, hne, hall⟩
    · intro c hc
      simp at hc
    · intro c hc
      rcases List.mem_cons.mp hc with rfl | hc
      · decide
      · exact (hall c hc).2.1
  have z1 : NoM g (')' :: (')' :: (')' :: z))) :=
    NoM_cons (matchField_nonquote (by decide))
      (NoM_cons (matchField_nonquote (by decide))
        (NoM_cons (matchField_nonquote (by decide)) hz))
  have z2 : NoM g (dflt ++ ')' :: (')' :: (')' :: z))) :=
    NoM_chunk_append hdq z1
  have z3 : NoM g (q2 :: (dflt ++ ')' :: (')' :: (')' :: z)))) := by
    rcases dfltOkB_inv hd with rfl | ⟨ds, rfl, hne, hall⟩
    · exact NoM_cons (matchField_head_mismatch hg (by decide)) z2
    · exact NoM_cons (matchField_head_mismatch hg (by decide)) z2
  have z4 : NoM g (f ++ q2 :: (dflt ++ ')' :: (')' :: (')' :: z)))) :=
    NoM_chunk_append hfq z3
  have z5 : NoM g
      (q2 :: (f ++ q2 :: (dflt ++ ')' :: (')' :: (')' :: z))))) := by
    refine NoM_cons ?_ z4
    rcases hgf with rfl | ⟨h1, h2⟩
    · exact matchField_self_noColon hq2 hd _
    · exact matchField_other h1 h2
  have z6 : NoM g (": Decimal(str(parameters.get(".toList ++
      (q2 :: (f ++ q2 :: (dflt ++ ')' :: (')' :: (')' :: z)))))) :=
    NoM_chunk_append (by decide) z5
  have z7 : NoM g (q1 :: (": Decimal(str(parameters.get(".toList ++
      (q2 :: (f ++ q2 :: (dflt ++ ')' :: (')' :: (')' :: z))))))) :=
    NoM_cons (matchField_head_mismatch hg (by decide)) z6
  have z8 : NoM g (f ++ q1 :: (": Decimal(str(parameters.get(".toList ++
      (q2 :: (f ++ q2 :: (dflt ++ ')' :: (')' :: (')' :: z))))))) :=
    NoM_chunk_append hfq z7
  have z9 : NoM g (q1 :: (f ++ q1 ::
      (": Decimal(str(parameters.get(".toList ++
        (q2 :: (f ++ q2 :: (dflt ++ ')' :: (')' :: (')' :: z)))))))) := by
    refine NoM_cons ?_ z8
    rcases hgf with rfl | ⟨h1, h2⟩
    · exact matchField_self_decimal hq1 _
    · exact matchField_other h1 h2
  have heq : replAssign f q1 q2 dflt ++ z
      = q1 :: (f ++ q1 :: (": Decimal(str(parameters.get(".toList ++
          (q2 :: (f ++ q2 :: (dflt ++ ')' :: (')' :: (')' :: z))))))) := by
    rw [replAssign]
    simp only [List.cons_append, List.append_assoc]
    rfl
  rw [heq]
  exact z9

theorem NoM_rawAssign_other {g f : List Char} (hg : fieldOkB g = true)
    {q1 q2 : Char} (hq1 : quoteCharB q1 = true) (hq2 : quoteCharB q2 = true)
    {dflt : List Char} (hd : dfltOkB dflt = true)
    (hfq : ∀ c ∈ f, quoteCharB c = false)
    (h1 : ¬ g <+: f) (h2 : ¬ f <+: g)
    {z : List Char} (hz : NoM g z) :
    NoM g (rawAssign f q1 q2 dflt ++ z) := by
  have hdq : ∀ c ∈ dflt, quoteCharB c = false := by
    rcases dfltOkB_inv hd with rfl | ⟨ds, rfl, hne, hall⟩
    · intro c hc
      simp at hc
    · intro c hc
      rcases List.mem_cons.mp hc with rfl | hc
      · decide
      · exact (hall c hc).2.1
  have z1 : NoM g (')' :: z) :=
    NoM_cons (matchField_nonquote (by decide)) hz
  have z2 : NoM g (dflt ++ ')' :: z) := NoM_chunk_append hdq z1
  have z3 : NoM g (q2 :: (dflt ++ ')' :: z)) := by
    rcases dfltOkB_inv hd with rfl | ⟨ds, rfl, hne, hall⟩
    · exact NoM_cons (matchField_head_mismatch hg (by decide)) z2
    · exact NoM_cons (matchField_head_mismatch hg (by decide)) z2
  have z4 : NoM g (f ++ q2 :: (dflt ++ ')' :: z)) :=
    NoM_chunk_append hfq z3
  have z5 : NoM g (q2 :: (f ++ q2 :: (dflt ++ ')' :: z))) :=
    NoM_cons (matchField_other h1 h2) z4
  have z6 : NoM g (": parameters.get(".toList ++
      (q2 :: (f ++ q2 :: (dflt ++ ')' :: z)))) :=
    NoM_chunk_append (by decide) z5
  have z7 : NoM g (q1 :: (": parameters.get(".toList ++
      (q2 :: (f ++ q2 :: (dflt ++ ')' :: z))))) :=
    NoM_cons (matchField_head_mismatch hg (by decide)) z6
  have z8 : NoM g (f ++ q1 :: (": parameters.get(".toList ++
      (q2 :: (f ++ q2 :: (dflt ++ ')' :: z))))) :=
    NoM_chunk_append hfq z7
  have z9 : NoM g (q1 :: (f ++ q1 :: (": parameters.get(".toList ++
      (q2 :: (f ++ q2 :: (dflt ++ ')' :: z)))))) :=
    NoM_cons (matchField_other h1 h2) z8
  have heq : rawAssign f q1 q2 dflt ++ z
      = q1 :: (f ++ q1 :: (": parameters.get(".toList ++
          (q2 :: (f ++ q2 :: (dflt ++ ')' :: z))))) := by
    rw [rawAssign]
    simp only [List.cons_append, List.append_assoc, List.singleton_append]
    rfl
  rw [heq]
  exact z9

theorem subAll_rewrite {f : List Char}
    {q1 q2 : Char} (hq1 : quoteCharB q1 = true) (hq2 : quoteCharB q2 = true)
    {dflt : List Char} (hd : dfltOkB dflt = true) {pre post : List Char}
    (hpre : ∀ c ∈ pre, quoteCharB c = false)
    (hpost : ∀ c ∈ post, quoteCharB c = false) :
    subAll f (pre ++ (rawAssign f q1 q2 dflt ++ post))
      = pre ++ (replAssign f q1 q2 dflt ++ post) := by
  rw [subAll_chunk_append hpre]
  rw [subAll_match (matchField_rawAssign hq1 hq2 hd post)]
  rw [show (FieldMatch.mk q1 q2 dflt post).rest = post from rfl]
  rw [subAll_eq_of_NoM (NoM_of_nonquote hpost)]
  rfl

theorem foldl_subAll_fixed {L : List (List Char)} {s : List Char}
    (h : ∀ g ∈ L, subAll g s = s) :
    L.foldl (fun acc g => subAll g acc) s = s := by
  induction L with
  | nil => rfl
  | cons g L2 ih =>
    rw [List.foldl_cons]
    rw [show subAll g s = s from h g (by simp)]
    exact ih (fun x hx => h x (by simp [hx]))

theorem fields_ok : ∀ g ∈ numericFields, fieldOkB g = true := by decide

theorem fields_nopre : ∀ g ∈ numericFields, ∀ f2 ∈ numericFields,
    g ≠ f2 → ¬ g <+: f2 := by decide

theorem fields_nodup : numericFields.Nodup := by decide

theorem skel_safe : ∀ g ∈ numericFields,
    suffixSafeB g skelA = true ∧ suffixSafeB g skelB = true ∧
    suffixSafeB g skelC = true ∧ suffixSafeB g skelD = true := by decide

theorem lstripChar_of_not_mem {c : Char} {s : List Char} (h : c ∉ s) :
    lstripChar c s = s := by
  cases s with
  | nil => rfl
  | cons c0 t =>
    rw [lstripChar, List.dropWhile_cons,
      if_neg (by simp; intro hc; exact h (by simp [hc]))]

theorem stripImports_single {code : List Char} (hnl : '\n' ∉ code)
    (hp : plainImportLine code = false) (hf : fromImportLine code = false)
    (hne : (pyStrip code).isEmpty = false) :
    stripImports code = code := by
  rw [stripImports]
  rw [splitLines_single hnl]
  simp only [List.map_cons, List.map_nil, hp, hf, Bool.false_eq_true,
    if_false, List.filter_cons, List.filter_nil, hne, Bool.not_false,
    Bool.true_or, if_true]
  rw [show joinLines [code] = code from rfl]
  exact lstripChar_of_not_mem hnl

theorem indent8_single {code : List Char} (hnl : '\n' ∉ code)
    (hne : (pyStrip code).isEmpty = false) :
    indent8 code = "        ".toList ++ code := by
  rw [indent8, splitLines_single hnl]
  simp only [List.map_cons, List.map_nil, hne, Bool.false_eq_true, if_false]
  rfl

theorem quote_ne_nl {q : Char} (h : quoteCharB q = true) : ¬ q = '\n' := by
  intro he
  subst he
  exact absurd h (by decide)

theorem quote_not_ws {q : Char} (h : quoteCharB q = true) :
    isWsChar q = false := by
  rw [quoteCharB] at h
  rcases Bool.or_eq_true_iff.mp h with h | h
  · rw [show q = '\'' by simpa using h]
    decide
  · rw [show q = '"' by simpa using h]
    decide

theorem fieldOkB_no_nl {f : List Char} (h : fieldOkB f = true) :
    '\n' ∉ f := by
  rw [fieldOkB] at h
  simp only [Bool.and_eq_true, List.all_eq_true] at h
  intro hm
  exact absurd (h.2 _ hm) (by decide)

theorem dfltOkB_no_nl {d : List Char} (h : dfltOkB d = true) : '\n' ∉ d := by
  rcases dfltOkB_inv h with rfl | ⟨ds, rfl, hne, hall⟩
  · simp
  · intro hm
    rcases List.mem_cons.mp hm with he | hm
    · exact absurd he (by decide)
    · exact (hall _ hm).2.2 rfl

theorem mem_dropWhile_of_neg {p : Char → Bool} {c : Char} {s : List Char}
    (hc : c ∈ s) (hw : p c = false) : c ∈ s.dropWhile p := by
  have hsplit := List.takeWhile_append_dropWhile p s
  rw [← hsplit] at hc
  rcases List.mem_append.mp hc with h | h
  · exact absurd (List.mem_takeWhile_imp h) (by simp [hw])
  · exact h

theorem pyStrip_keeps {c : Char} {s : List Char} (hc : c ∈ s)
    (hw : isWsChar c = false) : c ∈ pyStrip s := by
  rw [pyStrip, List.rdropWhile]
  rw [List.mem_reverse]
  exact mem_dropWhile_of_neg (List.mem_reverse.mpr
    (mem_dropWhile_of_neg hc hw)) hw

theorem isEmpty_false_of_mem {c : Char} {s : List Char} (h : c ∈ s) :
    s.isEmpty = false := by
  cases s with
  | nil => simp at h
  | cons a t => rfl

theorem joinLines_nonquote {ls : List (List Char)}
    (h : ∀ l ∈ ls, ∀ c ∈ l, quoteCharB c = false) :
    ∀ c ∈ joinLines ls, quoteCharB c = false := by
  induction ls with
  | nil =>
    intro c hc
    simp [joinLines] at hc
  | cons l ls2 ih =>
    cases ls2 with
    | nil =>
      intro c hc
      exact h l (by simp) c hc
    | cons l2 ls3 =>
      intro c hc
      rw [show joinLines (l :: l2 :: ls3)
            = l ++ '\n' :: joinLines (l2 :: ls3) from rfl] at hc
      rcases List.mem_append.mp hc with hc | hc
      · exact h l (by simp) c hc
      rcases List.mem_cons.mp hc with rfl | hc
      · decide
      · exact ih (fun x hx => h x (by simp [hx])) c hc

theorem imports_nonquote : ∀ (b1 b2 b3 b4 : Bool),
    ∀ l ∈ ["import json".toList, "import logging".toList] ++
      ((if b1 then ["import boto3".toList] else []) ++
        ((if b2 then ["from datetime import datetime".toList] else []) ++
          ((if b3 then ["import os".toList] else []) ++
            (if b4 then ["from decimal import Decimal".toList] else [])))),
    ∀ c ∈ l, quoteCharB c = false := by decide

theorem imports_nonquote3 : ∀ (b1 b2 b3 : Bool),
    ∀ l ∈ ["import json".toList, "import logging".toList] ++
      ((if b1 then ["import boto3".toList] else []) ++
        ((if b2 then ["from datetime import datetime".toList] else []) ++
          ((if b3 then ["import os".toList] else []) ++
            ["from decimal import Decimal".toList]))),
    ∀ c ∈ l, quoteCharB c = false := by decide

theorem infix_append_left {l y : List Char} (x : List Char)
    (h : l <:+: y) : l <:+: x ++ y := by
  obtain ⟨s, t, hst⟩ := h
  refine ⟨x ++ s, t, ?_⟩
  rw [← hst]
  simp [List.append_assoc]

theorem infix_append_right {l y : List Char} (h : l <:+: y)
    (x : List Char) : l <:+: y ++ x := by
  obtain ⟨s, t, hst⟩ := h
  refine ⟨s, t ++ x, ?_⟩
  rw [← hst]
  simp [List.append_assoc]

theorem foldl_numericFields_rewrite {field : List Char}
    (hfield : field ∈ numericFields)
    {q1 q2 : Char} (hq1 : quoteCharB q1 = true) (hq2 : quoteCharB q2 = true)
    {dflt : List Char} (hd : dfltOkB dflt = true) {pre post : List Char}
    (hpre : ∀ c ∈ pre, quoteCharB c = false)
    (hpost : ∀ c ∈ post, quoteCharB c = false) :
    numericFields.foldl (fun acc f => subAll f acc)
        (pre ++ (rawAssign field q1 q2 dflt ++ post))
      = pre ++ (replAssign field q1 q2 dflt ++ post) := by
  have hfq := fieldOkB_nonquote (fields_ok field hfield)
  obtain ⟨L1, L2, hL⟩ := List.append_of_mem hfield
  have hnodup := fields_nodup
  rw [hL] at hnodup
  have hdisj := (List.nodup_append.mp hnodup).2.2
  have hnd1 : ∀ g ∈ L1, g ≠ field := by
    intro g hg he
    subst he
    exact hdisj hg (by simp)
  have hnd2 : ∀ g ∈ L2, g ≠ field := by
    intro g hg he
    subst he
    have h2 := (List.nodup_append.mp hnodup).2.1
    rw [List.nodup_cons] at h2
    exact h2.1 hg
  have hmemL1 : ∀ g ∈ L1, g ∈ numericFields := by
    intro g hg
    rw [hL]
    exact List.mem_append_left _ hg
  have hmemL2 : ∀ g ∈ L2, g ∈ numericFields := by
    intro g hg
    rw [hL]
    exact List.mem_append_right _ (by simp [hg])
  rw [hL, List.foldl_append]
  rw [foldl_subAll_fixed (fun g hg => subAll_eq_of_NoM
    (NoM_chunk_append hpre
      (NoM_rawAssign_other (fields_ok g (hmemL1 g hg)) hq1 hq2 hd hfq
        (fields_nopre g (hmemL1 g hg) field hfield (hnd1 g hg))
        (fields_nopre field hfield g (hmemL1 g hg) (Ne.symm (hnd1 g hg)))
        (NoM_of_nonquote hpost))))]
  rw [List.foldl_cons]
  rw [subAll_rewrite hq1 hq2 hd hpre hpost]
  exact foldl_subAll_fixed (fun g hg => subAll_eq_of_NoM
    (NoM_chunk_append hpre
      (NoM_replAssign (fields_ok g (hmemL2 g hg)) hq1 hq2 hd hfq
        (Or.inr ⟨fields_nopre g (hmemL2 g hg) field hfield (hnd2 g hg),
          fields_nopre field hfield g (hmemL2 g hg)
            (Ne.symm (hnd2 g hg))⟩)
        (NoM_of_nonquote hpost))))

theorem replAssign_no_nl {field : List Char} {q1 q2 : Char}
    (hq1 : quoteCharB q1 = true) (hq2 : quoteCharB q2 = true)
    (hfnl : '\n' ∉ field) {dflt : List Char} (hd : dfltOkB dflt = true) :
    '\n' ∉ replAssign field q1 q2 dflt := by
  intro hm
  rw [replAssign] at hm
  rcases List.mem_append.mp hm with hm | hm
  · rcases List.mem_append.mp hm with hm | hm
    · rcases List.mem_append.mp hm with hm | hm
      · rcases List.mem_append.mp hm with hm | hm
        · rcases List.mem_cons.mp hm with he | hm
          · exact quote_ne_nl hq1 he.symm
          · exact hfnl hm
        · rcases List.mem_cons.mp hm with he | hm
          · exact quote_ne_nl hq1 he.symm
          · exact (by decide :
              '\n' ∉ ": Decimal(str(parameters.get(".toList) hm
      · rcases List.mem_cons.mp hm with he | hm
        · exact quote_ne_nl hq2 he.symm
        · exact hfnl hm
    · rcases List.mem_cons.mp hm with he | hm
      · exact quote_ne_nl hq2 he.symm
      · exact dfltOkB_no_nl hd hm
  · exact (by decide : '\n' ∉ ")))".toList) hm

theorem noInfix_of_NoM {f raw x : List Char}
    (hN : NoM f x) (hpos : ∀ t, matchField f (raw ++ t) ≠ none) :
    ¬ raw <:+: x := by
  intro hinf
  obtain ⟨s, t, hst⟩ := hinf
  exact hpos t (hN (raw ++ t) ⟨s, by rw [← hst]; simp [List.append_assoc]⟩)

theorem gen_code_decimal (spec : LambdaToolSpec)
    {field pre post dflt : List Char} {q1 q2 : Char}
    (hfield : field ∈ numericFields)
    (hq1 : quoteCharB q1 = true) (hq2 : quoteCharB q2 = true)
    (hd : dfltOkB dflt = true)
    (hpre : ∀ c ∈ pre, quoteCharB c = false)
    (hpost : ∀ c ∈ post, quoteCharB c = false)
    (hname : ∀ c ∈ spec.name, quoteCharB c = false)
    (hhc : spec.handler_code = pre ++ (rawAssign field q1 q2 dflt ++ post))
    (hnl : '\n' ∉ pre ++ (rawAssign field q1 q2 dflt ++ post))
    (hstrip : pyStrip (pre ++ (rawAssign field q1 q2 dflt ++ post))
      = pre ++ (rawAssign field q1 q2 dflt ++ post))
    (hnotdef1 : containsB "def handler".toList
      (pre ++ (rawAssign field q1 q2 dflt ++ post)) = false)
    (hnotdef2 : containsB "def lambda_handler".toList
      (pre ++ (rawAssign field q1 q2 dflt ++ post)) = false)
    (hput : containsB "put_item".toList
      (pre ++ (rawAssign field q1 q2 dflt ++ post)) = true)
    (hplain : plainImportLine
      (pre ++ (rawAssign field q1 q2 dflt ++ post)) = false)
    (hfrom : fromImportLine
      (pre ++ (rawAssign field q1 q2 dflt ++ post)) = false) :
    replAssign field q1 q2 dflt <:+: generate_lambda_code spec ∧
    ¬ rawAssign field q1 q2 dflt <:+: generate_lambda_code spec := by
  have hfok := fields_ok field hfield
  have hfq := fieldOkB_nonquote hfok
  have hq1mem : q1 ∈ pre ++ (rawAssign field q1 q2 dflt ++ post) := by
    rw [rawAssign]
    simp
  have hfragne :
      (pre ++ (rawAssign field q1 q2 dflt ++ post)).isEmpty = false :=
    isEmpty_false_of_mem hq1mem
  have hstripne :
      (pyStrip (pre ++ (rawAssign field q1 q2 dflt ++ post))).isEmpty
        = false := by
    rw [hstrip]
    exact hfragne
  have hnl_pre : '\n' ∉ pre := fun h => hnl (List.mem_append_left _ h)
  have hnl_post : '\n' ∉ post := fun h =>
    hnl (List.mem_append_right _ (List.mem_append_right _ h))
  have hnlbody : '\n' ∉ pre ++ (replAssign field q1 q2 dflt ++ post) := by
    intro hm
    rcases List.mem_append.mp hm with hm | hm
    · exact hnl_pre hm
    rcases List.mem_append.mp hm with hm | hm
    · exact replAssign_no_nl hq1 hq2 (fieldOkB_no_nl hfok) hd hm
    · exact hnl_post hm
  have hbody_q1 : q1 ∈ pre ++ (replAssign field q1 q2 dflt ++ post) := by
    rw [replAssign]
    simp
  have hbodyne :
      (pyStrip (pre ++ (replAssign field q1 q2 dflt ++ post))).isEmpty
        = false :=
    isEmpty_false_of_mem (pyStrip_keeps hbody_q1 (quote_not_ws hq1))
  rw [generate_lambda_code]
  simp only []
  rw [hhc]
  rw [hstrip]
  rw [hstrip]
  rw [hnotdef1, hnotdef2]
  simp only [Bool.or_self]
  rw [if_neg (show ¬ ((false : Bool) = true) by simp)]
  rw [if_neg (show
    ¬ ((pre ++ (rawAssign field q1 q2 dflt ++ post)).isEmpty = true)
    by simp [hfragne])]
  rw [hput]
  simp only [Bool.or_true, if_true]
  rw [stripImports_single hnl hplain hfrom hstripne]
  simp only [Bool.and_true]
  rw [if_pos hput]
  rw [foldl_numericFields_rewrite hfield hq1 hq2 hd hpre hpost]
  rw [indent8_single hnlbody hbodyne]
  simp only [List.append_assoc]
  constructor
  · have hbase : replAssign field q1 q2 dflt <:+:
        replAssign field q1 q2 dflt ++ (post ++ skelD) :=
      ⟨[], post ++ skelD, by simp⟩
    exact infix_append_left _ (infix_append_left _ (infix_append_left _
      (infix_append_left _ (infix_append_left _ (infix_append_left _
        (infix_append_left _ (infix_append_left _ hbase)))))))
  · intro hinf
    have n0 : NoM field skelD :=
      NoM_of_suffixSafe (skel_safe field hfield).2.2.2
    have n1 := NoM_chunk_append hpost n0
    have n2 := NoM_replAssign hfok hq1 hq2 hd hfq (Or.inl rfl) n1
    have n3 := NoM_chunk_append hpre n2
    have n4 := NoM_chunk_append
      (by decide : ∀ c ∈ "        ".toList, quoteCharB c = false) n3
    have n5 := suffixSafeB_sound (skel_safe field hfield).2.2.1 n4
    have n6 := NoM_chunk_append hname n5
    have n7 := suffixSafeB_sound (skel_safe field hfield).2.1 n6
    have n8 := NoM_chunk_append hname n7
    have n9 := suffixSafeB_sound (skel_safe field hfield).1 n8
    exact absurd hinf (noInfix_of_NoM
      (NoM_chunk_append (joinLines_nonquote (imports_nonquote3 _ _ _)) n9)
      (fun t h => by
        rw [matchField_rawAssign hq1 hq2 hd t] at h
        exact Option.noConfusion h))

/-- C1: for every handler fragment that is not a complete handler
definition and contains a `put_item` store-write whose payload assigns a
recognized numeric field directly from a `parameters.get` lookup (with or
without a default), the synthesized module contains that assignment
rewritten as `Decimal(str(parameters.get(...)))`, and no longer contains
the raw unwrapped lookup.  The fragment is a single line whose text
outside the assignment is quote-free. -/
theorem claim_C1_decimal_rewrite (spec : LambdaToolSpec)
    {field pre post dflt : List Char} {q1 q2 : Char}
    (hfield : field ∈ numericFields)
    (hq1 : quoteCharB q1 = true) (hq2 : quoteCharB q2 = true)
    (hd : dfltOkB dflt = true)
    (hpre : ∀ c ∈ pre, quoteCharB c = false)
    (hpost : ∀ c ∈ post, quoteCharB c = false)
    (hname : ∀ c ∈ spec.name, quoteCharB c = false)
    (hhc : spec.handler_code = pre ++ (rawAssign field q1 q2 dflt ++ post))
    (hnl : '\n' ∉ pre ++ (rawAssign field q1 q2 dflt ++ post))
    (hstrip : pyStrip (pre ++ (rawAssign field q1 q2 dflt ++ post))
      = pre ++ (rawAssign field q1 q2 dflt ++ post))
    (hnotdef1 : containsB "def handler".toList
      (pre ++ (rawAssign field q1 q2 dflt ++ post)) = false)
    (hnotdef2 : containsB "def lambda_handler".toList
      (pre ++ (rawAssign field q1 q2 dflt ++ post)) = false)
    (hput : containsB "put_item".toList
      (pre ++ (rawAssign field q1 q2 dflt ++ post)) = true)
    (hplain : plainImportLine
      (pre ++ (rawAssign field q1 q2 dflt ++ post)) = false)
    (hfrom : fromImportLine
      (pre ++ (rawAssign field q1 q2 dflt ++ post)) = false) :
    replAssign field q1 q2 dflt <:+: generate_lambda_code spec ∧
    ¬ rawAssign field q1 q2 dflt <:+: generate_lambda_code spec :=
  gen_code_decimal spec hfield hq1 hq2 hd hpre hpost hname hhc hnl hstrip
    hnotdef1 hnotdef2 hput hplain hfrom

/-- Concrete instance of C1: `table.put_item(Item=\x7b"amount":
parameters.get("amount")\x7d)`. -/
theorem claim_C1_decimal_rewrite_witness :
    replAssign "amount".toList '"' '"' [] <:+:
      generate_lambda_code
        ⟨"record_sale".toList, "records a sale".toList, sampleSchemaOk,
         "table.put_item(Item=\x7b".toList ++
           (rawAssign "amount".toList '"' '"' [] ++ "\x7d)".toList)⟩ ∧
    ¬ rawAssign "amount".toList '"' '"' [] <:+:
      generate_lambda_code
        ⟨"record_sale".toList, "records a sale".toList, sampleSchemaOk,
         "table.put_item(Item=\x7b".toList ++
           (rawAssign "amount".toList '"' '"' [] ++ "\x7d)".toList)⟩ :=
  @claim_C1_decimal_rewrite
    ⟨"record_sale".toList, "records a sale".toList, sampleSchemaOk,
     "table.put_item(Item=\x7b".toList ++
       (rawAssign "amount".toList '"' '"' [] ++ "\x7d)".toList)⟩
    "amount".toList "table.put_item(Item=\x7b".toList "\x7d)".toList []
    '"' '"' (by decide) (by decide) (by decide) (by decide) (by decide)
    (by decide) (by decide) rfl (by decide) (by decide) (by decide)
    (by decide) (by decide) (by decide) (by decide)

/-- C2 (amended): every sanitizer returns a non-empty result within its
length cap and character class, and the runtime, gateway and
gateway-target sanitizers are idempotent.  (The generic AWS and memory
sanitizers are not idempotent; see the counterexample.) -/
theorem claim_C2_sanitizers (name : List Char) :
    (sanitize_aws_name name 63 ≠ [] ∧
     (sanitize_aws_name name 63).length ≤ 63 ∧
     (∀ c ∈ sanitize_aws_name name 63, awsNameClass c = true)) ∧
    (sanitize_memory_name name 48 ≠ [] ∧
     (sanitize_memory_name name 48).length ≤ 48 ∧
     (∀ c ∈ sanitize_memory_name name 48, memNameClass c = true)) ∧
    (sanitize_runtime_name name 48 ≠ [] ∧
     (sanitize_runtime_name name 48).length ≤ 48 ∧
     (∀ c ∈ sanitize_runtime_name name 48, wordClass c = true)) ∧
    (sanitize_gateway_name name 48 ≠ [] ∧
     (sanitize_gateway_name name 48).length ≤ 48 ∧
     (∀ c ∈ sanitize_gateway_name name 48, gwClass c = true)) ∧
    (sanitize_gateway_target_name name 100 ≠ [] ∧
     (sanitize_gateway_target_name name 100).length ≤ 100 ∧
     (∀ c ∈ sanitize_gateway_target_name name 100, gwClass c = true)) ∧
    sanitize_runtime_name (sanitize_runtime_name name 48) 48 =
      sanitize_runtime_name name 48 ∧
    sanitize_gateway_name (sanitize_gateway_name name 48) 48 =
      sanitize_gateway_name name 48 ∧
    sanitize_gateway_target_name
        (sanitize_gateway_target_name name 100) 100 =
      sanitize_gateway_target_name name 100 := by
  obtain ⟨a1, a2, a3, _, _⟩ := sanitize_aws_name_props name
  obtain ⟨m1, m2, m3, _, _⟩ := sanitize_memory_name_props name
  obtain ⟨r1, r2, r3, _, _, _⟩ := sanitize_runtime_name_props name
  obtain ⟨g1, g2, g3, _, _, _⟩ := sanitize_gateway_name_props name
  obtain ⟨t1, t2, t3, _, _, _⟩ := sanitize_gateway_target_name_props name
  exact ⟨⟨a1, a2, a3⟩, ⟨m1, m2, m3⟩, ⟨r1, r2, r3⟩, ⟨g1, g2, g3⟩,
    ⟨t1, t2, t3⟩, sanitize_runtime_name_idem name,
    sanitize_gateway_name_idem name, sanitize_gateway_target_name_idem name⟩

/-- C2 counterexample: the generic AWS and memory sanitizers are not
idempotent on `"-abc"` (a second pass collapses the separator run that
prepending the leading letter created). -/
theorem claim_C2_counterexample :
    sanitize_aws_name (sanitize_aws_name "-abc".toList 63) 63 ≠
      sanitize_aws_name "-abc".toList 63 ∧
    sanitize_memory_name (sanitize_memory_name "-abc".toList 48) 48 ≠
      sanitize_memory_name "-abc".toList 48 := by decide

/-- C3: starting from the fresh tracker, a successful first
`create_gateway` call returns a created outcome, records the gateway in
the tracker and makes exactly one control-plane call; the second call
(any name and description) returns a duplicate-blocked outcome naming the
first gateway, leaves the tracker unchanged and makes zero control-plane
calls. -/
theorem claim_C3_gateway_dedup {role : Option (List Char)}
    {cp : List Char → List Char → Option GatewayResponse}
    {name desc name2 desc2 : List Char} {resp : GatewayResponse}
    (hrole : role.isSome = true)
    (hcp : cp (sanitize_gateway_name name 48) desc = some resp) :
    create_gateway role cp initialGatewayTracker name desc =
      (.created name resp.gatewayId (resp.gatewayUrl.getD "N/A".toList),
       ⟨true, some resp.gatewayId, some name⟩, 1) ∧
    create_gateway role cp
        (create_gateway role cp initialGatewayTracker name desc).2.1
        name2 desc2 =
      (.duplicateBlocked (some name) (some resp.gatewayId),
       ⟨true, some resp.gatewayId, some name⟩, 0) := by
  have h1 := create_gateway_first hrole hcp
  refine ⟨h1, ?_⟩
  rw [h1]
  exact create_gateway_blocked

/-- Concrete instance of C3. -/
theorem claim_C3_gateway_dedup_witness :
    create_gateway (some "role-arn".toList)
        (fun _ _ => some ⟨"gw-123".toList,
          some "https://gw.example.com/mcp".toList⟩)
        initialGatewayTracker "My Gateway".toList "desc".toList =
      (.created "My Gateway".toList "gw-123".toList
        "https://gw.example.com/mcp".toList,
       ⟨true, some "gw-123".toList, some "My Gateway".toList⟩, 1) ∧
    create_gateway (some "role-arn".toList)
        (fun _ _ => some ⟨"gw-123".toList,
          some "https://gw.example.com/mcp".toList⟩)
        (create_gateway (some "role-arn".toList)
          (fun _ _ => some ⟨"gw-123".toList,
            some "https://gw.example.com/mcp".toList⟩)
          initialGatewayTracker "My Gateway".toList "desc".toList).2.1
        "Other".toList "d2".toList =
      (.duplicateBlocked (some "My Gateway".toList) (some "gw-123".toList),
       ⟨true, some "gw-123".toList, some "My Gateway".toList⟩, 0) :=
  @claim_C3_gateway_dedup (some "role-arn".toList)
    (fun _ _ => some ⟨"gw-123".toList,
      some "https://gw.example.com/mcp".toList⟩)
    "My Gateway".toList "desc".toList "Other".toList "d2".toList
    ⟨"gw-123".toList, some "https://gw.example.com/mcp".toList⟩ rfl rfl

/-- C4: `add_connection` with a target URL whose scheme is not `https`
returns a validation error and leaves the connection map unchanged: no
source agent's connection list changes. -/
theorem claim_C4_http_rejected {registry : AgentRegistry} {m : ConnMap}
    {src tgt url : List Char} (h : urlScheme url ≠ "https".toList) :
    (∃ msg, add_connection registry m src tgt url =
      (Except.error (A2AErr.validation msg), m)) ∧
    ∀ a, get_connections (add_connection registry m src tgt url).2 a =
      get_connections m a := by
  obtain ⟨msg, hmsg⟩ := add_connection_bad_scheme h
  exact ⟨⟨msg, hmsg⟩, fun a => by rw [hmsg]⟩

/-- Concrete instance of C4: `http://example.com` is rejected. -/
theorem claim_C4_http_rejected_witness :
    (∃ msg, add_connection (fun _ => none) [] "s1".toList "t1".toList
      "http://example.com".toList =
      (Except.error (A2AErr.validation msg), [])) ∧
    ∀ a, get_connections (add_connection (fun _ => none) [] "s1".toList
      "t1".toList "http://example.com".toList).2 a =
      get_connections [] a :=
  claim_C4_http_rejected (by decide)

/-- C5: after two successful `add_connection` calls for the same
`(source, target)` pair, exactly one connection to that target is stored
for the source, its URL is the one of the later call, and the source's
connections to other targets are unchanged. -/
theorem claim_C5_upsert {registry : AgentRegistry} {m : ConnMap}
    {src tgt url1 url2 : List Char} {c1 c2 : A2AConnection} {m1 m2 : ConnMap}
    (h1 : add_connection registry m src tgt url1 = (Except.ok c1, m1))
    (h2 : add_connection registry m1 src tgt url2 = (Except.ok c2, m2)) :
    (get_connections m2 src).filter
      (fun x => x.target_agent_id = tgt) = [c2] ∧
    c2.target_a2a_url = url2 ∧
    (get_connections m2 src).filter (fun x => !(x.target_agent_id = tgt)) =
      (get_connections m src).filter
        (fun x => !(x.target_agent_id = tgt)) :=
  add_connection_twice h1 h2

/-- Concrete instance of C5: two adds to the same target keep only the
second URL. -/
theorem claim_C5_upsert_witness :
    (get_connections [("s1".toList,
        [(⟨"s1".toList, "t1".toList, "https://t1.example.com/b".toList,
          "Target One".toList⟩ : A2AConnection)])] "s1".toList).filter
      (fun x => x.target_agent_id = "t1".toList) =
      [⟨"s1".toList, "t1".toList, "https://t1.example.com/b".toList,
        "Target One".toList⟩] ∧
    (⟨"s1".toList, "t1".toList, "https://t1.example.com/b".toList,
      "Target One".toList⟩ : A2AConnection).target_a2a_url =
      "https://t1.example.com/b".toList ∧
    (get_connections [("s1".toList,
        [(⟨"s1".toList, "t1".toList, "https://t1.example.com/b".toList,
          "Target One".toList⟩ : A2AConnection)])] "s1".toList).filter
      (fun x => !(x.target_agent_id = "t1".toList)) =
      (get_connections ([] : ConnMap) "s1".toList).filter
        (fun x => !(x.target_agent_id = "t1".toList)) :=
  @claim_C5_upsert
    (fun a =>
      if a = "s1".toList then
        some ⟨"s1".toList, "Source One".toList, "arn:s1".toList,
          "deployed".toList, none, []⟩
      else if a = "t1".toList then
        some ⟨"t1".toList, "Target One".toList, "arn:t1".toList,
          "deployed".toList, some "https://t1.example.com".toList, []⟩
      else none)
    [] "s1".toList "t1".toList
    "https://t1.example.com/a".toList "https://t1.example.com/b".toList
    ⟨"s1".toList, "t1".toList, "https://t1.example.com/a".toList,
      "Target One".toList⟩
    ⟨"s1".toList, "t1".toList, "https://t1.example.com/b".toList,
      "Target One".toList⟩
    [("s1".toList,
      [⟨"s1".toList, "t1".toList, "https://t1.example.com/a".toList,
        "Target One".toList⟩])]
    [("s1".toList,
      [⟨"s1".toList, "t1".toList, "https://t1.example.com/b".toList,
        "Target One".toList⟩])]
    rfl rfl

/-- C6: the deployment mode is `server` whenever `gateway_id` is truthy
(so a gateway takes precedence over known agents); it is `client` exactly
when `gateway_id` is falsy and `known_agent_ids` is truthy; with both
falsy it defaults to `server`. -/
theorem claim_C6_mode (gateway_id : Option (List Char))
    (known_agent_ids : Option (List (List Char))) :
    (pyTruthyStr gateway_id = true →
      agent_mode gateway_id known_agent_ids = .server) ∧
    (agent_mode gateway_id known_agent_ids = .client ↔
      (pyTruthyStr gateway_id = false ∧
       pyTruthyList known_agent_ids = true)) ∧
    (pyTruthyStr gateway_id = false →
      pyTruthyList known_agent_ids = false →
      agent_mode gateway_id known_agent_ids = .server) := by
  rw [agent_mode]
  by_cases h1 : pyTruthyStr gateway_id = true
  · rw [if_pos h1]
    refine ⟨fun _ => rfl, ?_, fun hf _ => absurd h1 (by simp [hf])⟩
    constructor
    · intro h
      cases h
    · rintro ⟨hf, _⟩
      rw [h1] at hf
      cases hf
  · rw [if_neg h1]
    have h1f : pyTruthyStr gateway_id = false := by
      simpa using h1
    by_cases h2 : pyTruthyList known_agent_ids = true
    · rw [if_pos h2]
      exact ⟨fun h => absurd h h1, ⟨fun _ => ⟨h1f, h2⟩, fun _ => rfl⟩,
        fun _ hf => absurd h2 (by simp [hf])⟩
    · rw [if_neg h2]
      refine ⟨fun _ => rfl, ?_, fun _ _ => rfl⟩
      constructor
      · intro h
        cases h
      · rintro ⟨_, ht⟩
        exact absurd ht h2

/-- C7 (amended): every line of the import-stripped body is either empty
or an original fragment line on which both handled import patterns
(single-name `import X` and `from ... import ...`) fail; lines of those
two forms never survive.  (Multi-name `import a, b` lines survive; see
the counterexample.) -/
theorem claim_C7_import_stripping (code : List Char) :
    ∀ l ∈ splitLines (stripImports code),
      l = [] ∨ (l ∈ splitLines code ∧ plainImportLine l = false ∧
        fromImportLine l = false) :=
  stripImports_lines code

/-- Concrete instance of C7 (amended form). -/
theorem claim_C7_import_stripping_witness :
    "x = 1".toList = [] ∨
    ("x = 1".toList ∈ splitLines ("x = 1\nimport os\ny = 2".toList) ∧
     plainImportLine "x = 1".toList = false ∧
     fromImportLine "x = 1".toList = false) :=
  claim_C7_import_stripping "x = 1\nimport os\ny = 2".toList
    "x = 1".toList (by decide)

/-- C7 counterexample: the multi-name plain import `import os, json` is
not removed — alone it is returned unchanged, and inside a fragment it
survives as a line of the stripped body — while the single-name form is
removed. -/
theorem claim_C7_counterexample :
    stripImports "import os, json".toList = "import os, json".toList ∧
    stripImports "import os".toList = [] ∧
    "import os, json".toList ∈
      splitLines (stripImports "x = 1\nimport os, json".toList) := by
  decide

/-- C8 (amended): the batch loop attempts every tool specification
independently and collects successes and failures separately — with three
specs of which exactly the middle one fails, it reports the other two as
created and the failure with its per-tool error.  (The original claim is
refuted: an empty-`properties` schema is not rejected, because
`validate_tool_schema` is never invoked on the batch path; see the
counterexample.) -/
theorem claim_C8_batch_isolation {env : ToolsEnv} {role gid : List Char}
    {t1 t2 t3 : ToolDef} {e1 e3 : List Char × List Char × List Char}
    {msg : List Char}
    (h1 : processTool env gid t1 = .ok e1)
    (h2 : processTool env gid t2 = .error msg)
    (h3 : processTool env gid t3 = .ok e3) :
    create_lambda_tools (some role) env gid [t1, t2, t3] =
      .partialFailure [e1, e3] [(toolDefName t2, msg)] :=
  create_lambda_tools_partial h1 h2 h3

/-- Concrete instance of C8 (amended form): the middle tool's creation
fails and the other two still succeed. -/
theorem claim_C8_batch_isolation_witness :
    create_lambda_tools (some "role".toList)
      ⟨fun s => if s.name = "tool-bad".toList then
          .error "creation failed".toList
        else .ok ⟨"arn-x".toList, "fn-x".toList⟩,
       fun _ _ => .ok (), fun _ => .ok⟩
      "gw1".toList [sampleToolA, sampleToolBad, sampleToolC] =
    .partialFailure
      [("tool-a".toList, "arn-x".toList, "first tool".toList),
       ("tool-c".toList, "arn-x".toList, "third tool".toList)]
      [("tool-bad".toList, "creation failed".toList)] :=
  claim_C8_batch_isolation rfl rfl rfl

/-- C8 counterexample: a spec whose schema has an empty `properties` map
is rejected by `validate_tool_schema`, yet the batch accepts all three
specs because the batch path never calls the validator. -/
theorem claim_C8_counterexample :
    validate_tool_schema sampleSchemaEmptyProps =
      some "Tool schema 'properties' cannot be empty".toList ∧
    create_lambda_tools (some "role".toList) envAllOk "gw1".toList
      [sampleToolA, sampleToolBad, sampleToolC] =
    .success
      [("tool-a".toList, "arn-x".toList, "first tool".toList),
       ("tool-bad".toList, "arn-x".toList, "bad tool".toList),
       ("tool-c".toList, "arn-x".toList, "third tool".toList)] :=
  ⟨rfl, rfl⟩

/-- C9: a `ResourceConflictException` ("permission already exists") from
the invoke-permission grant is swallowed: the tool still registers as a
success, is appended to the created list, and no error is recorded. -/
theorem claim_C9_conflict_success {env : ToolsEnv}
    {role gid nm desc hc : List Char} {schema : ToolSchema}
    {fn : LambdaFnResult}
    (hcf : env.createToolFunction ⟨nm, desc, schema, hc⟩ = .ok fn)
    (hgt : env.createGatewayTarget gid
      (sanitize_gateway_target_name nm 100) = .ok ())
    (hperm : env.addPermission fn.function_name = .conflict) :
    processTool env gid ⟨some nm, some desc, some schema, some hc⟩ =
      .ok (nm, fn.function_arn, desc) ∧
    create_lambda_tools (some role) env gid
      [⟨some nm, some desc, some schema, some hc⟩] =
      .success [(nm, fn.function_arn, desc)] :=
  permission_conflict_is_success hcf hgt hperm

/-- Concrete instance of C9. -/
theorem claim_C9_conflict_success_witness :
    processTool
      ⟨fun _ => .ok ⟨"arn-x".toList, "fn-x".toList⟩,
       fun _ _ => .ok (), fun _ => .conflict⟩
      "gw1".toList
      ⟨some "tool-a".toList, some "first tool".toList,
       some sampleSchemaOk, some "return 1".toList⟩ =
      .ok ("tool-a".toList, "arn-x".toList, "first tool".toList) ∧
    create_lambda_tools (some "role".toList)
      ⟨fun _ => .ok ⟨"arn-x".toList, "fn-x".toList⟩,
       fun _ _ => .ok (), fun _ => .conflict⟩
      "gw1".toList
      [⟨some "tool-a".toList, some "first tool".toList,
        some sampleSchemaOk, some "return 1".toList⟩] =
      .success [("tool-a".toList, "arn-x".toList, "first tool".toList)] :=
  @claim_C9_conflict_success
    ⟨fun _ => .ok ⟨"arn-x".toList, "fn-x".toList⟩,
     fun _ _ => .ok (), fun _ => .conflict⟩
    "role".toList "gw1".toList "tool-a".toList "first tool".toList
    "return 1".toList sampleSchemaOk ⟨"arn-x".toList, "fn-x".toList⟩
    rfl rfl rfl

/-- C10: with a valid https URL and a registered target but a source
absent from the registry, `add_connection` raises the connection error
from the environment-update step only after storing the connection:
despite the error, `get_connections` on the source returns a list
containing the new connection. -/
theorem claim_C10_mutation_on_error {registry : AgentRegistry}
    {m : ConnMap} {src tgt url : List Char} {rec : AgentRecord}
    (hval : validate_a2a_url url = none)
    (htgt : registry tgt = some rec)
    (hsrc : registry src = none)
    (hpost : a2aConnectionValidate ⟨src, tgt, url, rec.agent_name⟩ = none) :
    add_connection registry m src tgt url =
      (Except.error (A2AErr.connection
        ("Agent not found in registry: ".toList ++ src)),
       connSet m src ((get_connections m src).filter
         (fun x => !(x.target_agent_id = tgt)) ++
         [⟨src, tgt, url, rec.agent_name⟩])) ∧
    ⟨src, tgt, url, rec.agent_name⟩ ∈
      get_connections (add_connection registry m src tgt url).2 src :=
  add_connection_missing_source hval htgt hsrc hpost

/-- Concrete instance of C10: the target is registered, the source is
not; the error is raised and the connection is stored anyway. -/
theorem claim_C10_mutation_on_error_witness :
    add_connection
      (fun a => if a = "t1".toList then
          some ⟨"t1".toList, "Target One".toList, "arn:t1".toList,
            "deployed".toList, some "https://t1.example.com".toList, []⟩
        else none)
      [] "s1".toList "t1".toList "https://t1.example.com/a2a".toList =
      (Except.error (A2AErr.connection
        ("Agent not found in registry: ".toList ++ "s1".toList)),
       connSet [] "s1".toList
         ((get_connections [] "s1".toList).filter
           (fun x => !(x.target_agent_id = "t1".toList)) ++
          [⟨"s1".toList, "t1".toList,
            "https://t1.example.com/a2a".toList, "Target One".toList⟩])) ∧
    (⟨"s1".toList, "t1".toList, "https://t1.example.com/a2a".toList,
      "Target One".toList⟩ : A2AConnection) ∈
      get_connections
        (add_connection
          (fun a => if a = "t1".toList then
              some ⟨"t1".toList, "Target One".toList, "arn:t1".toList,
                "deployed".toList, some "https://t1.example.com".toList, []⟩
            else none)
          [] "s1".toList "t1".toList
          "https://t1.example.com/a2a".toList).2 "s1".toList :=
  @claim_C10_mutation_on_error
    (fun a => if a = "t1".toList then
        some ⟨"t1".toList, "Target One".toList, "arn:t1".toList,
          "deployed".toList, some "https://t1.example.com".toList, []⟩
      else none)
    [] "s1".toList "t1".toList "https://t1.example.com/a2a".toList
    ⟨"t1".toList, "Target One".toList, "arn:t1".toList,
      "deployed".toList, some "https://t1.example.com".toList, []⟩
    rfl rfl rfl rfl
